import Mathlib

/-!
# TimestampRange filter of baker

A shallow embedding of `filter/timestamp_range.go` (the `TimestampRange` filter
stage of the baker pipeline) together with the parts of the Go standard library
it calls (`strconv.ParseInt`, `time.Parse`, `Time.Unix`), followed by the
properties of the stage.

Go strings are byte sequences; they are embedded as lists of bytes.
-/

namespace Baker

/-! ## Go strings -/

/-- A Go string (or byte slice): a finite sequence of bytes. -/
abbrev GoString := List UInt8

/-- The bytes (UTF-8) of a string literal of the source. -/
def lit (s : String) : GoString := s.data.flatMap String.utf8EncodeChar

/-! ## `strconv.ParseInt(s, 10, 64)` -/

/-- The two sentinel errors a `strconv.NumError` can wrap here. -/
inductive NumError where
  | ErrSyntax
  | ErrRange
  deriving DecidableEq, Repr

/-- `strconv.lower`: the ASCII lower-case of a letter byte, `c | ('x' - 'X')`. -/
def lower (c : UInt8) : Nat := c.toNat ||| 32

/-- The digit value `d` a byte denotes in the scanning loop of
`strconv.ParseUint`, if it is a decimal digit or a letter (base is not `0`, so
the underscore is no digit separator). -/
def digitVal (c : UInt8) : Option Nat :=
  if 48 ≤ c.toNat ∧ c.toNat ≤ 57 then some (c.toNat - 48)
  else if 97 ≤ lower c ∧ lower c ≤ 122 then some (lower c - 97 + 10)
  else none

/-- The largest `uint64`. -/
def maxUint64 : Nat := 2 ^ 64 - 1

/-- The scanning loop of `strconv.ParseUint(s, 10, 64)`, with accumulator `n`.
The result is the pair `(value, error)` of the Go function. -/
def ParseUint.loop : GoString → Nat → Nat × Option NumError
  | [], n => (n, none)
  | c :: cs, n =>
    match digitVal c with
    | none => (0, some NumError.ErrSyntax)
    | some d =>
      if d ≥ 10 then (0, some NumError.ErrSyntax)
      else if n ≥ maxUint64 / 10 + 1 then (maxUint64, some NumError.ErrRange)
      else
        let n10 := (n * 10) % 2 ^ 64
        let n1 := (n10 + d) % 2 ^ 64
        if n1 < n10 ∨ n1 > maxUint64 then (maxUint64, some NumError.ErrRange)
        else ParseUint.loop cs n1

/-- Go's `strconv.ParseUint(s, 10, 64)`. -/
def ParseUint (s : GoString) : Nat × Option NumError :=
  if s = [] then (0, some NumError.ErrSyntax) else ParseUint.loop s 0

/-- The conversion `int64(x)` of an integer: reduction into
`[-2^63, 2^63)` modulo `2^64`. -/
def toInt64 (x : Int) : Int := (x + 2 ^ 63) % 2 ^ 64 - 2 ^ 63

/-- Go's `strconv.ParseInt(s, 10, 64)`: the pair `(value, error)`. -/
def ParseInt (s : GoString) : Int × Option NumError :=
  match s with
  | [] => (0, some NumError.ErrSyntax)
  | c :: rest =>
    let neg : Bool := c = 45
    let body : GoString := if c = 43 then rest else if c = 45 then rest else s
    let r := ParseUint body
    if r.2 ≠ none ∧ r.2 ≠ some NumError.ErrRange then (0, r.2)
    else
      let cutoff : Nat := 2 ^ 63
      if neg = false ∧ r.1 ≥ cutoff then (((cutoff - 1 : Nat) : Int), some NumError.ErrRange)
      else if neg = true ∧ r.1 > cutoff then (-(cutoff : Int), some NumError.ErrRange)
      else
        let n := toInt64 (r.1 : Int)
        (if neg then toInt64 (-n) else n, none)

/-! ## Records and the stage -/

/-- A `baker.FieldIndex`: the position of a field in a record. -/
abbrev FieldIndex := Nat

/-- Modelled from the spec: `baker.Record` is declared in package `baker`,
outside the source file of the filter; a record is an ordered sequence of
fields, each a byte string, addressable by positional index. -/
structure Record where
  fields : List GoString
  deriving DecidableEq, Repr

/-- Modelled from the spec: `Record.Get`, the raw bytes at a field index
(no bytes when the record has no such field). -/
def Record.Get (l : Record) (i : FieldIndex) : GoString := l.fields.getD i []

/-- The filter stage `TimestampRange`. The two counters are `int64` in the
source and start at zero. `Process` below adds to them as to integers, which
is what the code computes as long as a counter is below `2^63 - 1`;
`ProcessInt64` adds to them in the wrapping arithmetic of `int64`. The bounds
are epoch seconds. -/
structure TimestampRange where
  numProcessedLines : Int
  numFilteredLines : Int
  startDate : Int
  endDate : Int
  fidx : FieldIndex
  deriving DecidableEq, Repr

/-- The part of `baker.FilterStats` that `Stats` fills in. -/
structure FilterStats where
  NumProcessedLines : Int
  NumFilteredLines : Int
  deriving DecidableEq, Repr

/-- `TimestampRange.Stats`. -/
def Stats (f : TimestampRange) : FilterStats :=
  { NumProcessedLines := f.numProcessedLines
    NumFilteredLines := f.numFilteredLines }

/-- `TimestampRange.Process`: the stage after the call, and the state of the
downstream after it, where `next l` is the effect on the downstream of one
invocation of the forwarding continuation with `l`. -/
def Process {σ : Type} (f : TimestampRange) (l : Record) (next : Record → σ → σ) (down : σ) :
    TimestampRange × σ :=
  let f1 := { f with numProcessedLines := f.numProcessedLines + 1 }
  let r := ParseInt (l.Get f1.fidx)
  if r.2 ≠ none then
    ({ f1 with numFilteredLines := f1.numFilteredLines + 1 }, down)
  else if r.1 < f1.startDate ∨ r.1 ≥ f1.endDate then
    ({ f1 with numFilteredLines := f1.numFilteredLines + 1 }, down)
  else
    (f1, next l down)

/-- The continuation that logs the records it is invoked with, in order. -/
def record (l : Record) (log : List Record) : List Record := log ++ [l]

/-- The invocations of the forwarding continuation made by one `Process` call. -/
def calls (f : TimestampRange) (l : Record) : List Record := (Process f l record []).2

/-- A sequence of `Process` calls on one stage, the continuation logging its
invocations after the ones in `log`. -/
def run (f : TimestampRange) (log : List Record) : List Record → TimestampRange × List Record
  | [] => (f, log)
  | l :: ls => run (Process f l record log).1 (Process f l record log).2 ls

/-! ## The counters in the arithmetic of `int64` -/

/-- `atomic.AddInt64(addr, delta)` on a cell that holds `x`: the value the
cell holds afterwards, the sum in the wrapping arithmetic of `int64`. -/
def AddInt64 (x delta : Int) : Int := toInt64 (x + delta)

/-- `TimestampRange.Process` with the additions to the two counters in the
arithmetic of `int64`: the stage after the call, and the state of the
downstream after it. -/
def ProcessInt64 {σ : Type} (f : TimestampRange) (l : Record) (next : Record → σ → σ)
    (down : σ) : TimestampRange × σ :=
  let f1 := { f with numProcessedLines := AddInt64 f.numProcessedLines 1 }
  let r := ParseInt (l.Get f1.fidx)
  if r.2 ≠ none then
    ({ f1 with numFilteredLines := AddInt64 f1.numFilteredLines 1 }, down)
  else if r.1 < f1.startDate ∨ r.1 ≥ f1.endDate then
    ({ f1 with numFilteredLines := AddInt64 f1.numFilteredLines 1 }, down)
  else
    (f1, next l down)

/-- A sequence of `ProcessInt64` calls on one stage, the continuation logging
its invocations after the ones in `log`. -/
def runInt64 (f : TimestampRange) (log : List Record) :
    List Record → TimestampRange × List Record
  | [] => (f, log)
  | l :: ls => runInt64 (ProcessInt64 f l record log).1 (ProcessInt64 f l record log).2 ls

/-- The stage of the day 2020-01-01 after `2^63 - 1` calls, none rejected. -/
def stageDayFull : TimestampRange := ⟨9223372036854775807, 0, 1577836800, 1577923200, 0⟩

/-! ## `time.Parse("2006-01-02 15:04:05", value)` and `Time.Unix` -/

/-- A `time.Time` in UTC: seconds since the Unix epoch and the nanoseconds
within that second. -/
structure Time where
  sec : Int
  nsec : Int
  deriving DecidableEq, Repr

/-- `Time.Unix`: the whole seconds since the Unix epoch. -/
def Time.Unix (t : Time) : Int := t.sec

/-- A `time.ParseError`. -/
structure ParseError where
  Layout : GoString
  Value : GoString
  LayoutElem : GoString
  ValueElem : GoString
  Message : GoString
  deriving DecidableEq, Repr

/-- `ParseError.Error`: the description of the failure, for any quoting
function `quote` in the place of the one of package `time` (`timeQuote`
below). -/
def ParseError.Error (quote : GoString → GoString) (e : ParseError) : GoString :=
  if e.Message = [] then
    lit "parsing time " ++ quote e.Value ++ lit " as " ++ quote e.Layout ++
      lit ": cannot parse " ++ quote e.ValueElem ++ lit " as " ++ quote e.LayoutElem
  else
    lit "parsing time " ++ quote e.Value ++ e.Message

/-- The layout elements that occur in the layout of `setTimes`. -/
inductive Std where
  | stdLongYear
  | stdZeroMonth
  | stdZeroDay
  | stdHour
  | stdZeroMinute
  | stdZeroSecond
  deriving DecidableEq, Repr

/-- The text of a layout element. -/
def Std.text : Std → GoString
  | Std.stdLongYear => lit "2006"
  | Std.stdZeroMonth => lit "01"
  | Std.stdZeroDay => lit "02"
  | Std.stdHour => lit "15"
  | Std.stdZeroMinute => lit "04"
  | Std.stdZeroSecond => lit "05"

/-- The constant `timeLayout` of `setTimes`. -/
def timeLayout : GoString := lit "2006-01-02 15:04:05"

/-- The successive results `(prefix, std)` of `nextStdChunk` on `timeLayout`;
after them the layout is exhausted (`std == 0` with an empty prefix). -/
def layoutChunks : List (GoString × Std) :=
  [ (lit "", Std.stdLongYear), (lit "-", Std.stdZeroMonth), (lit "-", Std.stdZeroDay),
    (lit " ", Std.stdHour), (lit ":", Std.stdZeroMinute), (lit ":", Std.stdZeroSecond) ]

/-- `time.isDigit(s, i)`: is there a decimal digit at offset `i`. -/
def isDigit (s : GoString) (i : Nat) : Bool :=
  match s.get? i with
  | none => false
  | some c => decide (48 ≤ c.toNat ∧ c.toNat ≤ 57)

/-- `time.commaOrPeriod`: the separators that may start a fraction of a
second. -/
def commaOrPeriod (c : UInt8) : Bool := c = 46 || c = 44

/-- `time.cutspace`: drop the leading spaces. -/
def cutspace : GoString → GoString
  | [] => []
  | c :: cs => if c = 32 then cutspace cs else c :: cs

/-- The loop of `time.skip`, unrolled at most `fuel` times; every round
removes at least one byte of `pfx`. -/
def skip.go : Nat → GoString → GoString → GoString × Bool
  | _, value, [] => (value, true)
  | 0, value, _ :: _ => (value, false)
  | fuel + 1, value, p :: ps =>
    if p = 32 then
      match value with
      | [] => skip.go fuel [] (cutspace ps)
      | v :: vs =>
        if v ≠ 32 then (v :: vs, false)
        else skip.go fuel (cutspace (v :: vs)) (cutspace ps)
    else
      match value with
      | [] => ([], false)
      | v :: vs => if v ≠ p then (v :: vs, false) else skip.go fuel vs ps

/-- `time.skip(value, prefix)`: consume the literal text `pfx` of the layout
from `value`; a space of the layout stands for any run of spaces. The result
is the rest of the value and whether the text matched. -/
def skip (value : GoString) (pfx : GoString) : GoString × Bool :=
  skip.go pfx.length value pfx

/-- `time.getnum(s, fixed)`: a one- or two-digit number (exactly two digits
when `fixed`), the rest of the input, and whether a number was found. -/
def getnum (s : GoString) (fixed : Bool) : Int × GoString × Bool :=
  if !isDigit s 0 then (0, s, false)
  else if !isDigit s 1 then
    if fixed then (0, s, false)
    else (((s.getD 0 0).toNat : Int) - 48, s.drop 1, true)
  else ((((s.getD 0 0).toNat : Int) - 48) * 10 + (((s.getD 1 0).toNat : Int) - 48), s.drop 2, true)

/-- `time.leadingInt`: the value of the leading decimal digits (after the
accumulator `x`) and the rest of the input. Its overflow guard cannot be
reached on the at most nine digits it is given here. -/
def leadingInt : GoString → Nat → Nat × GoString
  | [], x => (x, [])
  | c :: cs, x =>
    if c.toNat < 48 ∨ c.toNat > 57 then (x, c :: cs)
    else leadingInt cs (x * 10 + (c.toNat - 48))

/-- `time.atoi`: a signed decimal number that fills the whole string. -/
def atoi (s : GoString) : Option Int :=
  let neg : Bool := match s with
    | c :: _ => c = 45
    | [] => false
  let body : GoString := match s with
    | c :: cs => if c = 45 ∨ c = 43 then cs else s
    | [] => s
  let r := leadingInt body 0
  if r.2 ≠ [] then none
  else some (if neg then -(r.1 : Int) else (r.1 : Int))

/-- `time.parseNanoseconds(value, nbytes)`: the nanoseconds a fraction
denotes. It is called on a separator followed by digits up to offset
`nbytes`, where its range check on a negative number cannot fire. -/
def parseNanoseconds (value : GoString) (nbytes : Nat) : Option Int :=
  match value with
  | [] => none
  | c :: _ =>
    if !commaOrPeriod c then none
    else
      let nb := if nbytes > 10 then 10 else nbytes
      match atoi ((value.take nb).drop 1) with
      | none => none
      | some ns => some (ns * 10 ^ (10 - nb))

/-- The offset `n` at which the loop
`for n = 2; n < len(value) && isDigit(value, n); n++` stops: the end of the
run of digits that starts at offset 2. -/
def fracEnd (value : GoString) : Nat :=
  2 + ((value.drop 2).takeWhile (fun c => decide (48 ≤ c.toNat ∧ c.toNat ≤ 57))).length

/-- The fields `time.Parse` collects, with the defaults it starts from. -/
structure Fields where
  year : Int := 0
  month : Int := -1
  day : Int := -1
  hour : Int := 0
  min : Int := 0
  sec : Int := 0
  nsec : Int := 0
  deriving DecidableEq, Repr

/-- The outcome of one layout element. -/
structure ElemResult where
  fields : Fields
  value : GoString
  hold : GoString
  rangeErrString : GoString
  ok : Bool

/-- The `switch std & stdMask` of `time.parse` for one layout element. -/
def parseElem (std : Std) (value : GoString) (fs : Fields) : ElemResult :=
  match std with
  | Std.stdLongYear =>
    if value.length < 4 ∨ !isDigit value 0 then ⟨fs, value, value, [], false⟩
    else
      match atoi (value.take 4) with
      | none => ⟨fs, value.drop 4, value, [], false⟩
      | some y => ⟨{ fs with year := y }, value.drop 4, value, [], true⟩
  | Std.stdZeroMonth =>
    let r := getnum value true
    ⟨{ fs with month := r.1 }, r.2.1, value,
      if r.2.2 ∧ (r.1 ≤ 0 ∨ 12 < r.1) then lit "month" else [], r.2.2⟩
  | Std.stdZeroDay =>
    let r := getnum value true
    ⟨{ fs with day := r.1 }, r.2.1, value, [], r.2.2⟩
  | Std.stdHour =>
    let r := getnum value false
    ⟨{ fs with hour := r.1 }, r.2.1, value,
      if r.1 < 0 ∨ 24 ≤ r.1 then lit "hour" else [], r.2.2⟩
  | Std.stdZeroMinute =>
    let r := getnum value true
    ⟨{ fs with min := r.1 }, r.2.1, value,
      if r.1 < 0 ∨ 60 ≤ r.1 then lit "minute" else [], r.2.2⟩
  | Std.stdZeroSecond =>
    let r := getnum value true
    if !r.2.2 then ⟨{ fs with sec := r.1 }, r.2.1, value, [], false⟩
    else if r.1 < 0 ∨ 60 ≤ r.1 then ⟨{ fs with sec := r.1 }, r.2.1, value, lit "second", true⟩
    else
      let v := r.2.1
      if v.length ≥ 2 ∧ commaOrPeriod (v.getD 0 0) ∧ isDigit v 1 then
        let n := fracEnd v
        match parseNanoseconds v n with
        | none => ⟨{ fs with sec := r.1 }, v.drop n, value, [], false⟩
        | some ns => ⟨{ fs with sec := r.1, nsec := ns }, v.drop n, value, [], true⟩
      else ⟨{ fs with sec := r.1 }, v, value, [], true⟩

/-- The table `lowerhex` of package `time`: the hexadecimal digit of a number
below 16. -/
def lowerhex (n : Nat) : UInt8 :=
  if n < 10 then UInt8.ofNat (48 + n) else UInt8.ofNat (87 + n)

/-- `time.quote`: the text between double quotes, with a backslash before a
double quote and before a backslash, and with a backslash, an `x` and two
hexadecimal digits in the place of every byte that is a control character or
is not ASCII. -/
def timeQuote (s : GoString) : GoString :=
  [34] ++ s.flatMap (fun b =>
    if b.toNat ≥ 128 ∨ b.toNat < 32 then
      [92, 120, lowerhex (b.toNat / 16), lowerhex (b.toNat % 16)]
    else if b = 34 ∨ b = 92 then [92, b]
    else [b]) ++ [34]

/-- The main loop of `time.parse` over the chunks of the layout: the fields
collected, or the parse error (whose message for trailing text quotes that
text). -/
def parseLoop (avalue : GoString) : List (GoString × Std) → GoString → Fields →
    Except ParseError Fields
  | [], value, fs =>
    if value ≠ [] then
      Except.error ⟨timeLayout, avalue, [], value, lit ": extra text: " ++ timeQuote value⟩
    else Except.ok fs
  | (pfx, std) :: chunks, value, fs =>
    let s := skip value pfx
    if !s.2 then Except.error ⟨timeLayout, avalue, pfx, s.1, []⟩
    else
      let r := parseElem std s.1 fs
      if r.rangeErrString ≠ [] then
        Except.error ⟨timeLayout, avalue, std.text, r.value,
          lit ": " ++ r.rangeErrString ++ lit " out of range"⟩
      else if !r.ok then Except.error ⟨timeLayout, avalue, std.text, r.hold, []⟩
      else parseLoop avalue chunks r.value r.fields

/-- `time.isLeap`. -/
def isLeap (year : Int) : Bool :=
  year % 4 = 0 && (year % 100 ≠ 0 || year % 400 = 0)

/-- The table `time.daysBefore`: the days of a non-leap year before each month. -/
def daysBefore : List Int := [0, 31, 59, 90, 120, 151, 181, 212, 243, 273, 304, 334, 365]

/-- `time.daysIn(m, year)`. -/
def daysIn (m : Int) (year : Int) : Int :=
  if m = 2 ∧ isLeap year then 29
  else daysBefore.getD m.toNat 0 - daysBefore.getD (m.toNat - 1) 0

/-- `time.norm(hi, lo, base)`. -/
def norm (hi lo base : Int) : Int × Int :=
  let n1 := if lo < 0 then (-lo - 1) / base + 1 else 0
  let hi1 := hi - n1
  let lo1 := lo + n1 * base
  let n2 := if lo1 ≥ base then lo1 / base else 0
  (hi1 + n2, lo1 - n2 * base)

/-- The constant `time.absoluteZeroYear`. -/
def absoluteZeroYear : Int := -292277022399

/-- `time.daysSinceEpoch(year)`: days from the absolute epoch to the start of
the year. -/
def daysSinceEpoch (year : Int) : Int :=
  let y := (year - absoluteZeroYear) % 2 ^ 64
  let n400 := y / 400
  let y1 := y - 400 * n400
  let n100 := y1 / 100
  let y2 := y1 - 100 * n100
  let n4 := y2 / 4
  let y3 := y2 - 4 * n4
  (146097 * n400 + 36524 * n100 + 1461 * n4 + 365 * y3) % 2 ^ 64

/-- The constant `absoluteToInternal + internalToUnix` of package `time`. -/
def absoluteToUnix : Int := -9223371966579724800 + -62135596800

/-- `time.Date(year, month, day, hour, min, sec, nsec, time.UTC)`; the
arithmetic on `abs` is that of `uint64`, the last addition that of `int64`. -/
def Date (year month day hour min sec nsec : Int) : Time :=
  let ym := norm year (month - 1) 12
  let year := ym.1
  let month := ym.2 + 1
  let sn := norm sec nsec 1000000000
  let ms := norm min sn.1 60
  let hm := norm hour ms.1 60
  let dh := norm day hm.1 24
  let d0 := daysSinceEpoch year
  let d1 := (d0 + daysBefore.getD (month - 1).toNat 0) % 2 ^ 64
  let d2 := if isLeap year ∧ month ≥ 3 then (d1 + 1) % 2 ^ 64 else d1
  let d3 := (d2 + (dh.1 - 1)) % 2 ^ 64
  let abs0 := (d3 * 86400) % 2 ^ 64
  let abs := (abs0 + (dh.2 * 3600 + hm.2 * 60 + ms.2)) % 2 ^ 64
  ⟨toInt64 (toInt64 abs + absoluteToUnix), sn.2⟩

/-- Go's `time.Parse(timeLayout, value)`: the time in UTC or the parse error. -/
def Parse (value : GoString) : Except ParseError Time :=
  match parseLoop value layoutChunks value {} with
  | Except.error e => Except.error e
  | Except.ok fs =>
    if fs.day < 1 ∨ fs.day > daysIn fs.month fs.year then
      Except.error ⟨timeLayout, value, [], [], lit ": day out of range"⟩
    else Except.ok (Date fs.year fs.month fs.day fs.hour fs.min fs.sec fs.nsec)

/-! ## Construction of the stage -/

/-- `TimestampRangeConfig`. -/
structure TimestampRangeConfig where
  StartDatetime : GoString := []
  EndDatetime : GoString := []
  Field : GoString := []
  deriving DecidableEq, Repr

/-- The part of `baker.FilterParams` the constructor reads: the decoded
configuration (possibly nil) and the field resolver. -/
structure FilterParams where
  DecodedConfig : Option TimestampRangeConfig
  FieldByName : GoString → FieldIndex × Bool

/-- `TimestampRange.setTimes`: the stage after the call and the error
returned (`none` for nil). `nowStart` and `nowEnd` are what `time.Now()`
returns at the first and at the second place it is called; `quote` is the
quoting used by the description of a parse error. -/
def setTimes (quote : GoString → GoString) (nowStart nowEnd : Time) (f : TimestampRange)
    (start end' : GoString) : TimestampRange × Option GoString :=
  let r1 : Except GoString TimestampRange :=
    if start = lit "now" then Except.ok { f with startDate := nowStart.Unix }
    else
      match Parse start with
      | Except.error err => Except.error (lit "start time is invalid: " ++ err.Error quote)
      | Except.ok t => Except.ok { f with startDate := t.Unix }
  match r1 with
  | Except.error e => (f, some e)
  | Except.ok f1 =>
    if end' = lit "now" then ({ f1 with endDate := nowEnd.Unix }, none)
    else
      match Parse end' with
      | Except.error err => (f1, some (lit "end time is invalid: " ++ err.Error quote))
      | Except.ok t => ({ f1 with endDate := t.Unix }, none)

/-- `NewTimestampRange`: the pair `(filter, error)` it returns, `none` for
nil. `fmtQuote` is the `%q` verb of `fmt.Errorf` (Go-syntax quoting) of the Go
standard library. -/
def NewTimestampRange (fmtQuote quote : GoString → GoString) (nowStart nowEnd : Time)
    (cfg : FilterParams) : Option TimestampRange × Option GoString :=
  let dcfg : TimestampRangeConfig :=
    match cfg.DecodedConfig with
    | none => {}
    | some c => c
  let r := cfg.FieldByName dcfg.Field
  if !r.2 then (none, some (lit "unknown field " ++ fmtQuote dcfg.Field))
  else
    let f : TimestampRange :=
      { numProcessedLines := 0, numFilteredLines := 0, startDate := 0, endDate := 0, fidx := r.1 }
    let res := setTimes quote nowStart nowEnd f dcfg.StartDatetime dcfg.EndDatetime
    match res.2 with
    | some err => (none, some err)
    | none => (some res.1, none)

/-! ## `Stats` as an operation on the stage -/

/-- `TimestampRange.Stats` as an operation on the stage it is called on (the
method has a pointer receiver): the stage after the call and the statistics
returned. The body only reads the two counters, with `atomic.LoadInt64`. -/
def StatsCall (f : TimestampRange) : TimestampRange × FilterStats := (f, Stats f)

/-! ## The system-call shim -/

/-- `bakerSyscall` of `baker_syscall.go`, the body for every platform but
Windows. `Syscall` is `syscall.Syscall` of those platforms, which takes the
trap and three arguments; its result `(r1, r2, err)` is of type `ρ`. -/
def bakerSyscall {ρ : Type} (Syscall : Nat → Nat → Nat → Nat → ρ)
    (trap _nargs a1 a2 a3 : Nat) : ρ :=
  Syscall trap a1 a2 a3

/-- `bakerSyscall` of `baker_syscall_windows.go`, the body for Windows.
`Syscall` is `syscall.Syscall` of Windows, which takes the trap, the number of
arguments and three arguments; its result `(r1, r2, err)` is of type `ρ`. -/
def bakerSyscall_windows {ρ : Type} (Syscall : Nat → Nat → Nat → Nat → Nat → ρ)
    (trap nargs a1 _a2 a3 : Nat) : ρ :=
  Syscall trap nargs a1 a3 a3

/-- A Windows system trap that returns the arguments it is called with. -/
def echoTrap (trap nargs a1 a2 a3 : Nat) : Nat × Nat × Nat × Nat × Nat :=
  (trap, nargs, a1, a2, a3)

/-- A system trap of the other platforms that returns the arguments it is
called with. -/
def echoTrap3 (trap a1 a2 a3 : Nat) : Nat × Nat × Nat × Nat :=
  (trap, a1, a2, a3)

/-! ## Concurrent calls of `Process` -/

/-- Where a `Process` call stands: before its first atomic addition, after
it, or returned. -/
inductive Pc where
  | start
  | counted
  | returned
  deriving DecidableEq, Repr

/-- A `Process` call in progress on some thread: the record it was given and
where it stands. -/
structure Call where
  l : Record
  pc : Pc
  deriving DecidableEq, Repr

/-- One atomic step of a `Process` call on the state the threads share, the
stage and the log of the invocations of the forwarding continuation. The
first step is `atomic.AddInt64(&f.numProcessedLines, 1)`. The second step is
the rest of the body: it reads the field index and the bounds, which no
thread writes, parses the field of its own record, and ends with the one
effect on the shared state, `atomic.AddInt64(&f.numFilteredLines, 1)` or the
invocation of the continuation. A call that has returned takes no step. -/
def Call.step (c : Call) (s : TimestampRange × List Record) :
    (TimestampRange × List Record) × Call :=
  match c.pc with
  | Pc.start =>
    (({ s.1 with numProcessedLines := s.1.numProcessedLines + 1 }, s.2),
      { c with pc := Pc.counted })
  | Pc.counted =>
    let r := ParseInt (c.l.Get s.1.fidx)
    if r.2 ≠ none then
      (({ s.1 with numFilteredLines := s.1.numFilteredLines + 1 }, s.2),
        { c with pc := Pc.returned })
    else if r.1 < s.1.startDate ∨ r.1 ≥ s.1.endDate then
      (({ s.1 with numFilteredLines := s.1.numFilteredLines + 1 }, s.2),
        { c with pc := Pc.returned })
    else
      ((s.1, record c.l s.2), { c with pc := Pc.returned })
  | Pc.returned => (s, c)

/-- Is the byte a decimal digit `'0'..'9'`. -/
def isDecDigit (c : UInt8) : Bool := decide (48 ≤ c.toNat ∧ c.toNat ≤ 57)

/-- The number a run of decimal digits denotes, continuing from `n`. -/
def decimal : GoString → Nat → Nat
  | [], n => n
  | c :: cs, n => decimal cs (n * 10 + (c.toNat - 48))

/-- The value of a digit byte. -/
def digitOf (c : UInt8) : Int := (c.toNat : Int) - 48

/-- Four decimal digits: their value and the rest of the text. -/
def fourDigits : GoString → Option (Int × GoString)
  | a :: b :: c :: d :: rest =>
    if isDecDigit a ∧ isDecDigit b ∧ isDecDigit c ∧ isDecDigit d then
      some ((decimal [a, b, c, d] 0 : Nat), rest)
    else none
  | _ => none

/-- Two decimal digits: their value and the rest of the text. -/
def twoDigits : GoString → Option (Int × GoString)
  | a :: b :: rest =>
    if isDecDigit a ∧ isDecDigit b then some (digitOf a * 10 + digitOf b, rest) else none
  | _ => none

/-- One or two decimal digits (two when there are two): their value and the
rest of the text. -/
def oneOrTwoDigits : GoString → Option (Int × GoString)
  | a :: b :: rest =>
    if isDecDigit a then
      if isDecDigit b then some (digitOf a * 10 + digitOf b, rest)
      else some (digitOf a, b :: rest)
    else none
  | [a] => if isDecDigit a then some (digitOf a, []) else none
  | [] => none

/-- The given byte, and then the rest of the text. -/
def expect (c : UInt8) : GoString → Option GoString
  | x :: rest => if x = c then some rest else none
  | [] => none

/-- One or more spaces, and then the rest of the text. -/
def spaces : GoString → Option GoString
  | x :: rest => if x = 32 then some (cutspace rest) else none
  | [] => none

/-- Nothing, or a fraction: a period or comma followed by one or more digits. -/
def optFraction : GoString → Bool
  | [] => true
  | c :: d :: ds => commaOrPeriod c && isDecDigit d && ds.all isDecDigit
  | [_] => false

/-- The number of days of a month of the Gregorian calendar. -/
def monthLength (year month : Int) : Int :=
  if month = 2 then (if isLeap year then 29 else 28)
  else if month = 4 ∨ month = 6 ∨ month = 9 ∨ month = 11 then 30
  else 31

/-- Do the six numbers denote a calendar date and a time of day. -/
def validDateTime (year month day hour min sec : Int) : Bool :=
  decide (1 ≤ month ∧ month ≤ 12 ∧ 1 ≤ day ∧ day ≤ monthLength year month ∧
    hour < 24 ∧ min < 60 ∧ sec < 60)

/-- The date `YYYY-MM-DD`: four-digit year, two-digit month and day, with
hyphens between them; the three numbers and the rest of the text. -/
def datePart (s : GoString) : Option (Int × Int × Int × GoString) := do
  let (year, s) ← fourDigits s
  let s ← expect 45 s
  let (month, s) ← twoDigits s
  let s ← expect 45 s
  let (day, s) ← twoDigits s
  some (year, month, day, s)

/-- The rest of a time of day after its hour, `:MM:SS`: two-digit minute and
second, each after a colon; the two numbers and the rest of the text. -/
def minSecPart (s : GoString) : Option (Int × Int × GoString) := do
  let s ← expect 58 s
  let (min, s) ← twoDigits s
  let s ← expect 58 s
  let (sec, s) ← twoDigits s
  some (min, sec, s)

/-- The fixed layout `YYYY-MM-DD HH:MM:SS` of the specification: four-digit
year, two-digit month, day, hour, minute and second, single separators,
nothing before or after, a valid date and time. The result is the six
numbers. -/
def fixedLayout (s : GoString) : Option (Int × Int × Int × Int × Int × Int) := do
  let (year, month, day, s) ← datePart s
  let s ← expect 32 s
  let (hour, s) ← twoDigits s
  let (min, sec, s) ← minSecPart s
  if s = [] ∧ validDateTime year month day hour min sec then
    some (year, month, day, hour, min, sec)
  else none

/-- The texts `time.Parse` takes under the layout of `setTimes`: as the fixed
layout, except that the date and the time may be separated by more than one
space, the hour may have a single digit, and a fraction of a second may
follow the seconds. The result is the six numbers. -/
def lenientLayout (s : GoString) : Option (Int × Int × Int × Int × Int × Int) := do
  let (year, month, day, s) ← datePart s
  let s ← spaces s
  let (hour, s) ← oneOrTwoDigits s
  let (min, sec, s) ← minSecPart s
  if optFraction s ∧ validDateTime year month day hour min sec then
    some (year, month, day, hour, min, sec)
  else none

/-! ## Example inputs -/

/-- A field resolver that knows the single field `ts`, at index 0. -/
def tsResolver (name : GoString) : FieldIndex × Bool :=
  if name = lit "ts" then (0, true) else (0, false)

/-- A record whose only field holds the given text. -/
def tsRecord (ts : String) : Record := ⟨[lit ts]⟩

/-- The configuration of the day 2020-01-01 on the field `ts`. -/
def cfgDay : FilterParams :=
  ⟨some ⟨lit "2020-01-01 00:00:00", lit "2020-01-02 00:00:00", lit "ts"⟩, tsResolver⟩

/-- The configuration of the day 2020-01-01 with its two bounds exchanged. -/
def cfgInverted : FilterParams :=
  ⟨some ⟨lit "2020-01-02 00:00:00", lit "2020-01-01 00:00:00", lit "ts"⟩, tsResolver⟩

/-- The stage `cfgDay` configures. -/
def stageDay : TimestampRange := ⟨0, 0, 1577836800, 1577923200, 0⟩

/-- The stage `cfgInverted` configures. -/
def stageInverted : TimestampRange := ⟨0, 0, 1577923200, 1577836800, 0⟩

set_option maxRecDepth 100000

/-! ## Facts about `strconv.ParseInt` -/

theorem decimal_mono (s : GoString) {m n : Nat} (h : m ≤ n) : decimal s m ≤ decimal s n := by
  induction s generalizing m n with
  | nil => simpa [decimal]
  | cons c cs ih =>
    simp only [decimal]
    exact ih (by omega)

/-- `Process` on a record whose field parses. -/
theorem Process_of_parsed {σ : Type} (f : TimestampRange) (l : Record) (v : Int)
    (h : ParseInt (l.Get f.fidx) = (v, none)) (next : Record → σ → σ) (down : σ) :
    Process f l next down =
      if v < f.startDate ∨ v ≥ f.endDate then
        ({ f with numProcessedLines := f.numProcessedLines + 1,
                  numFilteredLines := f.numFilteredLines + 1 }, down)
      else ({ f with numProcessedLines := f.numProcessedLines + 1 }, next l down) := by
  simp [Process, h]

/-- `Process` on a record whose field does not parse. -/
theorem Process_of_unparsed {σ : Type} (f : TimestampRange) (l : Record)
    (h : (ParseInt (l.Get f.fidx)).2 ≠ none) (next : Record → σ → σ) (down : σ) :
    Process f l next down =
      ({ f with numProcessedLines := f.numProcessedLines + 1,
                numFilteredLines := f.numFilteredLines + 1 }, down) := by
  simp [Process, h]

/-- The invocations of the continuation on a record whose field parses. -/
theorem calls_of_parsed (f : TimestampRange) (l : Record) (v : Int)
    (h : ParseInt (l.Get f.fidx) = (v, none)) :
    (f.startDate ≤ v ∧ v < f.endDate → calls f l = [l]) ∧
    (v < f.startDate ∨ f.endDate ≤ v → calls f l = []) := by
  unfold calls
  rw [Process_of_parsed f l v h]
  constructor
  · intro hin
    rw [if_neg (by omega)]
    simp [record]
  · intro hout
    rw [if_pos (by omega)]

/-- `setTimes` touches only the two bounds. -/
theorem setTimes_frame (quote : GoString → GoString) (nowStart nowEnd : Time)
    (f : TimestampRange) (start end' : GoString) :
    (setTimes quote nowStart nowEnd f start end').1.numProcessedLines = f.numProcessedLines ∧
    (setTimes quote nowStart nowEnd f start end').1.numFilteredLines = f.numFilteredLines ∧
    (setTimes quote nowStart nowEnd f start end').1.fidx = f.fidx := by
  unfold setTimes
  by_cases hs : start = lit "now"
  · by_cases he : end' = lit "now"
    · simp [hs, he]
    · cases hp : Parse end' <;> simp [hs, he, hp]
  · cases hps : Parse start with
    | error e => simp [hs, hps]
    | ok t =>
      by_cases he : end' = lit "now"
      · simp [hs, he, hps]
      · cases hp : Parse end' <;> simp [hs, he, hps, hp]

/-- A stage returned by `NewTimestampRange` has both counters at zero and the
field index the resolver gave. -/
theorem NewTimestampRange_fresh (fmtQuote quote : GoString → GoString) (nowStart nowEnd : Time)
    (cfg : FilterParams) (f : TimestampRange)
    (h : (NewTimestampRange fmtQuote quote nowStart nowEnd cfg).1 = some f) :
    f.numProcessedLines = 0 ∧ f.numFilteredLines = 0 := by
  unfold NewTimestampRange at h
  simp only at h
  split at h
  · simp at h
  · split at h
    · simp at h
    · simp only [Option.some.injEq] at h
      subst h
      exact ⟨(setTimes_frame _ _ _ _ _ _).1, (setTimes_frame _ _ _ _ _ _).2.1⟩

/-! ## Sequences of calls -/

/-- One `Process` call adds one to the processed counter and accounts for it
either in the rejected counter or in the log of the continuation. -/
theorem Process_accounting (f : TimestampRange) (l : Record) (log : List Record) :
    (Process f l record log).1.numProcessedLines = f.numProcessedLines + 1 ∧
    (Process f l record log).1.numFilteredLines + ((Process f l record log).2.length : Int) =
      f.numFilteredLines + (log.length : Int) + 1 := by
  unfold Process
  simp only
  split
  · simp only [true_and]
    omega
  · split
    · simp only [true_and]
      omega
    · simp only [record, List.length_append, List.length_singleton, Nat.cast_add, Nat.cast_one,
        true_and]
      omega

/-- C4, as the code has it: on a stage whose bounds satisfy `start < end` a
record whose field value equals `start` is forwarded; on every stage a record
whose field value equals `end` is dropped, and so is one whose field value
equals `start - 1`. -/
theorem boundary_records (f : TimestampRange) (l : Record) (v : Int)
    (hparse : ParseInt (l.Get f.fidx) = (v, none)) :
    (v = f.startDate → f.startDate < f.endDate → calls f l = [l]) ∧
    (v = f.endDate → calls f l = []) ∧
    (v = f.startDate - 1 → calls f l = []) := by
  unfold calls
  rw [Process_of_parsed f l v hparse]
  refine ⟨?_, ?_, ?_⟩
  · intro hv hlt
    rw [if_neg (by omega)]
    simp [record]
  · intro hv
    rw [if_pos (by omega)]
  · intro hv
    rw [if_pos (by omega)]

/-- Witness of C4: the lower boundary of the day 2020-01-01. -/
theorem boundary_records_witness :
    ParseInt ((tsRecord "1577836800").Get stageDay.fidx) = (1577836800, none) ∧
    (1577836800 : Int) = stageDay.startDate ∧ stageDay.startDate < stageDay.endDate ∧
    calls stageDay (tsRecord "1577836800") = [tsRecord "1577836800"] :=
  ⟨by decide, by decide, by decide,
    (boundary_records stageDay (tsRecord "1577836800") 1577836800 (by decide)).1
      (by decide) (by decide)⟩

/-- Counterexample to C4 as stated: the configuration with the bounds of the
day 2020-01-01 exchanged is accepted, and on the stage it yields a record whose
field value equals `start` is dropped. -/
theorem boundary_start_dropped_on_inverted_stage :
    NewTimestampRange id id ⟨0, 0⟩ ⟨0, 0⟩ cfgInverted = (some stageInverted, none) ∧
    ParseInt ((tsRecord "1577923200").Get stageInverted.fidx) = (stageInverted.startDate, none) ∧
    calls stageInverted (tsRecord "1577923200") = [] ∧
    (Process stageInverted (tsRecord "1577923200") record []).1.numFilteredLines = 1 := by
  decide

/-! ## What construction returns -/

/-- `setTimes` when both strings are acceptable: `a` is the bound the start
string stands for, `b` the one the end string stands for. -/
theorem setTimes_ok (quote : GoString → GoString) (nowStart nowEnd : Time)
    (f : TimestampRange) (start end' : GoString) (a b : Int)
    (hs : (start = lit "now" ∧ a = nowStart.Unix) ∨
      (start ≠ lit "now" ∧ ∃ t, Parse start = Except.ok t ∧ a = t.Unix))
    (he : (end' = lit "now" ∧ b = nowEnd.Unix) ∨
      (end' ≠ lit "now" ∧ ∃ t, Parse end' = Except.ok t ∧ b = t.Unix)) :
    setTimes quote nowStart nowEnd f start end' = ({ f with startDate := a, endDate := b }, none) := by
  unfold setTimes
  rcases hs with ⟨hs, ha⟩ | ⟨hs, t, hp, ha⟩ <;> rcases he with ⟨he, hb⟩ | ⟨he, u, hq, hb⟩
  · simp [hs, he, ha, hb]
  · simp [hs, he, hq, ha, hb]
  · simp [hs, he, hp, ha, hb]
  · simp [hs, he, hp, hq, ha, hb]

/-- `setTimes` when the start string is not acceptable. -/
theorem setTimes_start_invalid (quote : GoString → GoString) (nowStart nowEnd : Time)
    (f : TimestampRange) (start end' : GoString) (e : ParseError)
    (hs : start ≠ lit "now") (hp : Parse start = Except.error e) :
    setTimes quote nowStart nowEnd f start end' =
      (f, some (lit "start time is invalid: " ++ e.Error quote)) := by
  unfold setTimes
  simp [hs, hp]

/-- `setTimes` when the start string is acceptable and the end string is not. -/
theorem setTimes_end_invalid (quote : GoString → GoString) (nowStart nowEnd : Time)
    (f : TimestampRange) (start end' : GoString) (a : Int) (e : ParseError)
    (hs : (start = lit "now" ∧ a = nowStart.Unix) ∨
      (start ≠ lit "now" ∧ ∃ t, Parse start = Except.ok t ∧ a = t.Unix))
    (he : end' ≠ lit "now") (hq : Parse end' = Except.error e) :
    setTimes quote nowStart nowEnd f start end' =
      ({ f with startDate := a }, some (lit "end time is invalid: " ++ e.Error quote)) := by
  unfold setTimes
  rcases hs with ⟨hs, ha⟩ | ⟨hs, t, hp, ha⟩
  · simp [hs, he, hq, ha]
  · simp [hs, he, hp, hq, ha]

/-- `NewTimestampRange` on a configuration whose field is known. -/
theorem NewTimestampRange_known (fmtQuote quote : GoString → GoString) (nowStart nowEnd : Time)
    (c : TimestampRangeConfig) (FieldByName : GoString → FieldIndex × Bool) (idx : FieldIndex)
    (hf : FieldByName c.Field = (idx, true)) :
    NewTimestampRange fmtQuote quote nowStart nowEnd ⟨some c, FieldByName⟩ =
      match (setTimes quote nowStart nowEnd ⟨0, 0, 0, 0, idx⟩ c.StartDatetime c.EndDatetime).2 with
      | some err => (none, some err)
      | none =>
        (some (setTimes quote nowStart nowEnd ⟨0, 0, 0, 0, idx⟩ c.StartDatetime c.EndDatetime).1,
          none) := by
  simp [NewTimestampRange, hf]

/-- C5: with StartDatetime "2020-01-01 00:00:00", EndDatetime
"2020-01-02 00:00:00" and a field `ts` the resolver knows, construction
succeeds with bounds 1577836800 and 1577923200; on that stage a record with
ts "1577836800" is forwarded, one with ts "1577923200" is dropped and one
with ts "abc" is dropped. -/
theorem day_2020_01_01_bounds (fmtQuote quote : GoString → GoString) (nowStart nowEnd : Time)
    (FieldByName : GoString → FieldIndex × Bool) (idx : FieldIndex)
    (hts : FieldByName (lit "ts") = (idx, true)) :
    NewTimestampRange fmtQuote quote nowStart nowEnd
        ⟨some ⟨lit "2020-01-01 00:00:00", lit "2020-01-02 00:00:00", lit "ts"⟩, FieldByName⟩ =
      (some ⟨0, 0, 1577836800, 1577923200, idx⟩, none) ∧
    ∀ l : Record,
      (l.Get idx = lit "1577836800" → calls ⟨0, 0, 1577836800, 1577923200, idx⟩ l = [l]) ∧
      (l.Get idx = lit "1577923200" → calls ⟨0, 0, 1577836800, 1577923200, idx⟩ l = []) ∧
      (l.Get idx = lit "abc" → calls ⟨0, 0, 1577836800, 1577923200, idx⟩ l = []) := by
  refine ⟨?_, ?_⟩
  · rw [NewTimestampRange_known fmtQuote quote nowStart nowEnd _ FieldByName idx hts]
    rw [setTimes_ok quote nowStart nowEnd _ _ _ 1577836800 1577923200
      (Or.inr ⟨by decide, ⟨1577836800, 0⟩, by rfl, rfl⟩)
      (Or.inr ⟨by decide, ⟨1577923200, 0⟩, by rfl, rfl⟩)]
  · intro l
    refine ⟨?_, ?_, ?_⟩
    · intro h
      have hp : ParseInt (l.Get (⟨0, 0, 1577836800, 1577923200, idx⟩ : TimestampRange).fidx) =
          (1577836800, none) := by
        show ParseInt (l.Get idx) = _
        rw [h]
        decide
      exact (calls_of_parsed _ l 1577836800 hp).1 (by simp)
    · intro h
      have hp : ParseInt (l.Get (⟨0, 0, 1577836800, 1577923200, idx⟩ : TimestampRange).fidx) =
          (1577923200, none) := by
        show ParseInt (l.Get idx) = _
        rw [h]
        decide
      exact (calls_of_parsed _ l 1577923200 hp).2 (by simp)
    · intro h
      unfold calls
      rw [Process_of_unparsed]
      show (ParseInt (l.Get idx)).2 ≠ none
      rw [h]
      decide

/-- Witness of C5: the resolver that knows `ts` at index 0, and the record
that holds the lower bound. -/
theorem day_2020_01_01_bounds_witness :
    tsResolver (lit "ts") = (0, true) ∧
    NewTimestampRange id id ⟨0, 0⟩ ⟨0, 0⟩
        ⟨some ⟨lit "2020-01-01 00:00:00", lit "2020-01-02 00:00:00", lit "ts"⟩, tsResolver⟩ =
      (some ⟨0, 0, 1577836800, 1577923200, 0⟩, none) :=
  ⟨by decide, (day_2020_01_01_bounds id id ⟨0, 0⟩ ⟨0, 0⟩ tsResolver 0 (by decide)).1⟩

/-- C6: when the resolver does not find the configured field name,
`NewTimestampRange` returns no stage and the error "unknown field " followed by
the quoted name, whatever the two datetime strings are. -/
theorem unknown_field_is_an_error (fmtQuote quote : GoString → GoString)
    (nowStart nowEnd : Time) (c : TimestampRangeConfig)
    (FieldByName : GoString → FieldIndex × Bool) (hunknown : (FieldByName c.Field).2 = false) :
    NewTimestampRange fmtQuote quote nowStart nowEnd ⟨some c, FieldByName⟩ =
      (none, some (lit "unknown field " ++ fmtQuote c.Field)) := by
  simp [NewTimestampRange, hunknown]

/-- Witness of C6: the field `tz` is unknown to the resolver of `ts`, and the
two datetime strings are valid. -/
theorem unknown_field_is_an_error_witness :
    (tsResolver (lit "tz")).2 = false ∧
    NewTimestampRange id id ⟨0, 0⟩ ⟨0, 0⟩
        ⟨some ⟨lit "2020-01-01 00:00:00", lit "2020-01-02 00:00:00", lit "tz"⟩, tsResolver⟩ =
      (none, some (lit "unknown field " ++ id (lit "tz"))) :=
  ⟨by decide, unknown_field_is_an_error id id ⟨0, 0⟩ ⟨0, 0⟩
    ⟨lit "2020-01-01 00:00:00", lit "2020-01-02 00:00:00", lit "tz"⟩ tsResolver (by decide)⟩

/-- C7: with a known field, a start string that is neither "now" nor parseable
makes `NewTimestampRange` return no stage and the error
"start time is invalid: " followed by the description of the parse failure;
an acceptable start string with an end string that is neither "now" nor
parseable makes it return no stage and "end time is invalid: " followed by
the description of that parse failure. -/
theorem invalid_datetime_is_an_error (fmtQuote quote : GoString → GoString)
    (nowStart nowEnd : Time) (c : TimestampRangeConfig)
    (FieldByName : GoString → FieldIndex × Bool) (idx : FieldIndex)
    (hknown : FieldByName c.Field = (idx, true)) :
    (∀ e, c.StartDatetime ≠ lit "now" → Parse c.StartDatetime = Except.error e →
      NewTimestampRange fmtQuote quote nowStart nowEnd ⟨some c, FieldByName⟩ =
        (none, some (lit "start time is invalid: " ++ e.Error quote))) ∧
    (∀ e, (c.StartDatetime = lit "now" ∨ ∃ t, Parse c.StartDatetime = Except.ok t) →
      c.EndDatetime ≠ lit "now" → Parse c.EndDatetime = Except.error e →
      NewTimestampRange fmtQuote quote nowStart nowEnd ⟨some c, FieldByName⟩ =
        (none, some (lit "end time is invalid: " ++ e.Error quote))) := by
  refine ⟨?_, ?_⟩
  · intro e hs hp
    rw [NewTimestampRange_known fmtQuote quote nowStart nowEnd c FieldByName idx hknown,
      setTimes_start_invalid quote nowStart nowEnd _ _ _ e hs hp]
  · intro e hs he hq
    by_cases hnow : c.StartDatetime = lit "now"
    · rw [NewTimestampRange_known fmtQuote quote nowStart nowEnd c FieldByName idx hknown,
        setTimes_end_invalid quote nowStart nowEnd _ _ _ nowStart.Unix e
          (Or.inl ⟨hnow, rfl⟩) he hq]
    · rcases hs with hs | ⟨t, ht⟩
      · exact absurd hs hnow
      · rw [NewTimestampRange_known fmtQuote quote nowStart nowEnd c FieldByName idx hknown,
          setTimes_end_invalid quote nowStart nowEnd _ _ _ t.Unix e
            (Or.inr ⟨hnow, t, ht, rfl⟩) he hq]

/-- Witness of C7: the start string "yesterday" on the known field `ts`. -/
theorem invalid_datetime_is_an_error_witness :
    tsResolver (lit "ts") = (0, true) ∧ lit "yesterday" ≠ lit "now" ∧
    Parse (lit "yesterday") =
      Except.error ⟨timeLayout, lit "yesterday", lit "2006", lit "yesterday", []⟩ ∧
    NewTimestampRange id id ⟨0, 0⟩ ⟨0, 0⟩
        ⟨some ⟨lit "yesterday", lit "2020-01-02 00:00:00", lit "ts"⟩, tsResolver⟩ =
      (none, some (lit "start time is invalid: " ++
        ParseError.Error id ⟨timeLayout, lit "yesterday", lit "2006", lit "yesterday", []⟩)) :=
  ⟨by decide, by decide, by rfl,
    (invalid_datetime_is_an_error id id ⟨0, 0⟩ ⟨0, 0⟩
      ⟨lit "yesterday", lit "2020-01-02 00:00:00", lit "ts"⟩ tsResolver 0 (by decide)).1
      _ (by decide) (by rfl)⟩

/-! ## Facts about `time.Parse` -/

theorem isDecDigit_iff (c : UInt8) : isDecDigit c = true ↔ 48 ≤ c.toNat ∧ c.toNat ≤ 57 := by
  simp [isDecDigit]

theorem not_sign_of_isDecDigit {c : UInt8} (h : isDecDigit c = true) : c ≠ 45 ∧ c ≠ 43 := by
  constructor
  · rintro rfl
    revert h
    decide
  · rintro rfl
    revert h
    decide

theorem isDigit_cons_zero (c : UInt8) (cs : GoString) : isDigit (c :: cs) 0 = isDecDigit c := by
  simp [isDigit, isDecDigit]

theorem isDigit_cons_succ (c : UInt8) (cs : GoString) (i : Nat) :
    isDigit (c :: cs) (i + 1) = isDigit cs i := by
  simp [isDigit]

theorem isDigit_nil (i : Nat) : isDigit [] i = false := by
  simp [isDigit]

theorem leadingInt_digits (ds : GoString) (h : ds.all isDecDigit = true) (x : Nat) :
    leadingInt ds x = (decimal ds x, []) := by
  induction ds generalizing x with
  | nil => simp [leadingInt, decimal]
  | cons c cs ih =>
    simp only [List.all_cons, Bool.and_eq_true] at h
    have hc := (isDecDigit_iff c).1 h.1
    simp only [leadingInt, decimal]
    rw [if_neg (by omega)]
    exact ih h.2 _

theorem leadingInt_nondigit (ds : GoString) (h : ¬ ds.all isDecDigit = true) (x : Nat) :
    (leadingInt ds x).2 ≠ [] := by
  induction ds generalizing x with
  | nil => simp at h
  | cons c cs ih =>
    by_cases hc : isDecDigit c = true
    · have hcs : ¬ cs.all isDecDigit = true := by
        intro hall
        exact h (by simp [hc, hall])
      have hc' := (isDecDigit_iff c).1 hc
      simp only [leadingInt]
      rw [if_neg (by omega)]
      exact ih hcs _
    · have hc' : ¬ (48 ≤ c.toNat ∧ c.toNat ≤ 57) := fun hh => hc ((isDecDigit_iff c).2 hh)
      simp only [leadingInt]
      rw [if_pos (by omega)]
      simp

/-- `atoi` on a digit followed by digits. -/
theorem atoi_digits (c : UInt8) (cs : GoString) (hc : isDecDigit c = true)
    (hcs : cs.all isDecDigit = true) : atoi (c :: cs) = some ((decimal (c :: cs) 0 : Nat) : Int) := by
  obtain ⟨h1, h2⟩ := not_sign_of_isDecDigit hc
  have hall : (c :: cs).all isDecDigit = true := by simp [hc, hcs]
  simp [atoi, h1, h2, leadingInt_digits (c :: cs) hall 0]

/-- `atoi` on a digit followed by bytes that are not all digits. -/
theorem atoi_nondigit (c : UInt8) (cs : GoString) (hc : isDecDigit c = true)
    (hcs : ¬ cs.all isDecDigit = true) : atoi (c :: cs) = none := by
  obtain ⟨h1, h2⟩ := not_sign_of_isDecDigit hc
  have hall : ¬ (c :: cs).all isDecDigit = true := by simp [hc]; simpa using hcs
  have := leadingInt_nondigit (c :: cs) hall 0
  simp [atoi, h1, h2, this]

theorem skip_nil (v : GoString) : skip v [] = (v, true) := by
  cases v <;> simp [skip, skip.go]

/-- `skip` of a single byte of layout text that is no space. -/
theorem skip_byte (c : UInt8) (hc : c ≠ 32) (v : GoString) :
    skip v [c] = match expect c v with
      | some rest => (rest, true)
      | none => (v, false) := by
  cases v with
  | nil => simp [skip, skip.go, expect, hc]
  | cons x xs =>
    by_cases hx : x = c
    · subst hx
      cases xs <;> simp [skip, skip.go, expect, hc]
    · simp [skip, skip.go, expect, hc, hx]

/-- `skip` of a space of the layout. -/
theorem skip_space (v : GoString) :
    skip v [32] = match v with
      | [] => ([], true)
      | x :: xs => if x = 32 then (cutspace (x :: xs), true) else (x :: xs, false) := by
  cases v with
  | nil => simp [skip, skip.go, cutspace]
  | cons x xs =>
    by_cases hx : x = 32
    · subst hx
      cases h : cutspace (32 :: xs) <;> simp [skip, skip.go, cutspace, h]
    · simp [skip, skip.go, hx]

/-- `getnum` with `fixed` set reads exactly two digits. -/
theorem getnum_fixed (v : GoString) :
    getnum v true = match twoDigits v with
      | some (n, rest) => (n, rest, true)
      | none => (0, v, false) := by
  match v with
  | [] => simp [getnum, twoDigits, isDigit_nil]
  | [a] =>
    by_cases ha : isDecDigit a = true <;>
      simp [getnum, twoDigits, isDigit_cons_zero, isDigit_cons_succ, isDigit_nil, ha]
  | a :: b :: rest =>
    by_cases ha : isDecDigit a = true <;> by_cases hb : isDecDigit b = true <;>
      simp [getnum, twoDigits, isDigit_cons_zero, isDigit_cons_succ, ha, hb, digitOf]

/-- `getnum` without `fixed` reads one or two digits. -/
theorem getnum_free (v : GoString) :
    getnum v false = match oneOrTwoDigits v with
      | some (n, rest) => (n, rest, true)
      | none => (0, v, false) := by
  match v with
  | [] => simp [getnum, oneOrTwoDigits, isDigit_nil]
  | [a] =>
    by_cases ha : isDecDigit a = true <;>
      simp [getnum, oneOrTwoDigits, isDigit_cons_zero, isDigit_cons_succ, isDigit_nil, ha, digitOf]
  | a :: b :: rest =>
    by_cases ha : isDecDigit a = true <;> by_cases hb : isDecDigit b = true <;>
      simp [getnum, oneOrTwoDigits, isDigit_cons_zero, isDigit_cons_succ, ha, hb, digitOf]

theorem digitOf_bounds {c : UInt8} (h : isDecDigit c = true) : 0 ≤ digitOf c ∧ digitOf c ≤ 9 := by
  have := (isDecDigit_iff c).1 h
  unfold digitOf
  omega

theorem twoDigits_nonneg {v : GoString} {n : Int} {rest : GoString}
    (h : twoDigits v = some (n, rest)) : 0 ≤ n := by
  match v, h with
  | a :: b :: r, h =>
    simp only [twoDigits] at h
    split at h
    · rename_i hd
      simp only [Option.some.injEq, Prod.mk.injEq] at h
      have ha := digitOf_bounds hd.1
      have hb := digitOf_bounds hd.2
      omega
    · simp at h

theorem oneOrTwoDigits_nonneg {v : GoString} {n : Int} {rest : GoString}
    (h : oneOrTwoDigits v = some (n, rest)) : 0 ≤ n := by
  match v, h with
  | [a], h =>
    simp only [oneOrTwoDigits] at h
    split at h
    · rename_i hd
      simp only [Option.some.injEq, Prod.mk.injEq] at h
      have ha := digitOf_bounds hd
      omega
    · simp at h
  | a :: b :: r, h =>
    simp only [oneOrTwoDigits] at h
    split at h
    · rename_i hd
      have ha := digitOf_bounds hd
      split at h
      · rename_i hd2
        have hb := digitOf_bounds hd2
        simp only [Option.some.injEq, Prod.mk.injEq] at h
        omega
      · simp only [Option.some.injEq, Prod.mk.injEq] at h
        omega
    · simp at h

/-- The year element on a text that starts with four digits. -/
theorem parseElem_year_some (v : GoString) (fs : Fields) (y : Int) (rest : GoString)
    (h : fourDigits v = some (y, rest)) :
    parseElem Std.stdLongYear v fs = ⟨{ fs with year := y }, rest, v, [], true⟩ := by
  match v, h with
  | a :: b :: c :: d :: r, h =>
    simp only [fourDigits] at h
    split at h
    · rename_i hd
      simp only [Option.some.injEq, Prod.mk.injEq] at h
      obtain ⟨hy, hr⟩ := h
      subst hy hr
      have hat := atoi_digits a [b, c, d] hd.1 (by simp [hd.2.1, hd.2.2.1, hd.2.2.2])
      simp [parseElem, isDigit_cons_zero, hd.1, hat]
    · simp at h

/-- The year element on a text that does not start with four digits. -/
theorem parseElem_year_none (v : GoString) (fs : Fields) (h : fourDigits v = none) :
    (parseElem Std.stdLongYear v fs).ok = false ∧
    (parseElem Std.stdLongYear v fs).rangeErrString = [] := by
  by_cases hlen : v.length < 4 ∨ (!isDigit v 0) = true
  · simp only [parseElem]
    rw [if_pos hlen]
    exact ⟨rfl, rfl⟩
  · match v, h, hlen with
    | a :: b :: c :: d :: r, h, hlen =>
      simp only [fourDigits] at h
      simp only [isDigit_cons_zero, List.length_cons, Bool.not_eq_true', not_or,
        Bool.not_eq_false] at hlen
      have ha : isDecDigit a = true := hlen.2
      have hrest : ¬ [b, c, d].all isDecDigit = true := by
        intro hall
        simp only [List.all_cons, List.all_nil, Bool.and_true, Bool.and_eq_true] at hall
        rw [if_pos ⟨ha, hall.1, hall.2.1, hall.2.2⟩] at h
        simp at h
      have hat := atoi_nondigit a [b, c, d] ha hrest
      simp only [parseElem, isDigit_cons_zero, ha, List.take_succ_cons, List.take_zero, hat]
      split <;> exact ⟨rfl, rfl⟩
    | [], _, hlen => simp at hlen
    | [_], _, hlen => simp at hlen
    | [_, _], _, hlen => simp at hlen
    | [_, _, _], _, hlen => simp at hlen

theorem all_take_of_le_takeWhile (p : UInt8 → Bool) (ds : GoString) (k : Nat)
    (hk : k ≤ (ds.takeWhile p).length) : (ds.take k).all p = true := by
  induction ds generalizing k with
  | nil => simp
  | cons c cs ih =>
    cases k with
    | zero => simp
    | succ k =>
      by_cases hc : p c = true
      · simp only [List.takeWhile_cons, hc, if_true, List.length_cons] at hk
        simp only [List.take_succ_cons, List.all_cons, hc, Bool.true_and]
        exact ih k (by omega)
      · simp [List.takeWhile_cons, hc] at hk

theorem dropWhile_eq_nil_iff_all (p : UInt8 → Bool) (ds : GoString) :
    ds.dropWhile p = [] ↔ ds.all p = true := by
  induction ds with
  | nil => simp
  | cons c cs ih =>
    by_cases hc : p c = true
    · simp [List.dropWhile_cons, hc, ih]
    · simp [List.dropWhile_cons, hc]

theorem drop_length_takeWhile (p : UInt8 → Bool) (ds : GoString) :
    ds.drop (ds.takeWhile p).length = ds.dropWhile p := by
  induction ds with
  | nil => simp
  | cons c cs ih =>
    by_cases hc : p c = true
    · simp [List.takeWhile_cons, List.dropWhile_cons, hc, ih]
    · simp [List.takeWhile_cons, List.dropWhile_cons, hc]

/-- A fraction after the seconds is always read successfully, up to the end
of its digits. -/
theorem parseNanoseconds_fraction (c d : UInt8) (ds : GoString)
    (hc : commaOrPeriod c = true) (hd : isDecDigit d = true) :
    (∃ ns, parseNanoseconds (c :: d :: ds) (fracEnd (c :: d :: ds)) = some ns) ∧
    (c :: d :: ds).drop (fracEnd (c :: d :: ds)) = ds.dropWhile isDecDigit := by
  have hfe : fracEnd (c :: d :: ds) = 2 + (ds.takeWhile isDecDigit).length := rfl
  constructor
  · rw [hfe]
    generalize hk : (ds.takeWhile isDecDigit).length = k
    have htake : ∀ j, j ≤ k → atoi (d :: ds.take j) ≠ none := by
      intro j hj
      rw [atoi_digits d (ds.take j) hd
        (all_take_of_le_takeWhile isDecDigit ds j (by omega))]
      simp
    unfold parseNanoseconds
    simp only [hc, Bool.not_true, Bool.false_eq_true, if_false]
    by_cases hbig : 2 + k > 10
    · rw [if_pos hbig]
      have h8 : ((c :: d :: ds).take 10).drop 1 = d :: ds.take 8 := by simp
      rw [h8]
      cases hat : atoi (d :: ds.take 8) with
      | none => exact absurd hat (htake 8 (by omega))
      | some n => exact ⟨_, rfl⟩
    · rw [if_neg hbig]
      have h8 : ((c :: d :: ds).take (2 + k)).drop 1 = d :: ds.take k := by
        rw [show 2 + k = (k + 1) + 1 by omega]
        simp
      rw [h8]
      cases hat : atoi (d :: ds.take k) with
      | none => exact absurd hat (htake k (by omega))
      | some n => exact ⟨_, rfl⟩
  · rw [hfe, show 2 + (ds.takeWhile isDecDigit).length = (ds.takeWhile isDecDigit).length + 2 by omega]
    simp only [List.drop_succ_cons]
    exact drop_length_takeWhile isDecDigit ds

/-- The seconds element, with the fraction that may follow: on two digits
below 60 it succeeds, sets the seconds, and leaves no text exactly when what
follows the two digits is nothing or a fraction. -/
theorem parseElem_second_some (v : GoString) (fs : Fields) (n : Int) (rest : GoString)
    (h : twoDigits v = some (n, rest)) (hn : n < 60) :
    ∃ ns rest', parseElem Std.stdZeroSecond v fs =
        ⟨{ fs with sec := n, nsec := ns }, rest', v, [], true⟩ ∧
      (rest' = [] ↔ optFraction rest = true) := by
  have h0 := twoDigits_nonneg h
  have hg := getnum_fixed v
  rw [h] at hg
  simp only at hg
  have hrange : ¬ (n < 0 ∨ 60 ≤ n) := by omega
  match rest, h, hg with
  | [], h, hg =>
    refine ⟨fs.nsec, [], ?_, by simp [optFraction]⟩
    simp [parseElem, hg, hrange]
  | [x], h, hg =>
    refine ⟨fs.nsec, [x], ?_, by simp [optFraction]⟩
    simp [parseElem, hg, hrange]
  | c :: d :: ds, h, hg =>
    by_cases hcond : commaOrPeriod c = true ∧ isDecDigit d = true
    · obtain ⟨⟨ns, hns⟩, hdrop⟩ := parseNanoseconds_fraction c d ds hcond.1 hcond.2
      refine ⟨ns, ds.dropWhile isDecDigit, ?_, ?_⟩
      · simp [parseElem, hg, hrange, hcond.1, isDigit_cons_succ, isDigit_cons_zero, hcond.2, hns,
          hdrop]
      · rw [dropWhile_eq_nil_iff_all]
        simp [optFraction, hcond.1, hcond.2]
    · refine ⟨fs.nsec, c :: d :: ds, ?_, ?_⟩
      · have hcond' : ¬ (commaOrPeriod c = true ∧ isDigit (c :: d :: ds) 1 = true) := by
          rw [isDigit_cons_succ, isDigit_cons_zero]
          exact hcond
        simp only [parseElem, hg, Bool.not_true, Bool.false_eq_true, if_false, hrange]
        rw [if_neg]
        intro hh
        apply hcond'
        simpa using hh.2
      · have : optFraction (c :: d :: ds) = false := by
          simp only [optFraction]
          rw [not_and_or] at hcond
          rcases hcond with hh | hh
          · simp [hh]
          · simp [hh]
        simp [this]

theorem layoutChunks_eq :
    layoutChunks =
      [([], Std.stdLongYear), ([45], Std.stdZeroMonth), ([45], Std.stdZeroDay),
        ([32], Std.stdHour), ([58], Std.stdZeroMinute), ([58], Std.stdZeroSecond)] := by
  decide

/-- One round of the loop of `time.parse`. -/
theorem parseLoop_cons (av pfx : GoString) (std : Std) (chunks : List (GoString × Std))
    (value : GoString) (fs : Fields) :
    parseLoop av ((pfx, std) :: chunks) value fs =
      if (skip value pfx).2 = false then
        Except.error ⟨timeLayout, av, pfx, (skip value pfx).1, []⟩
      else if (parseElem std (skip value pfx).1 fs).rangeErrString ≠ [] then
        Except.error ⟨timeLayout, av, std.text, (parseElem std (skip value pfx).1 fs).value,
          lit ": " ++ (parseElem std (skip value pfx).1 fs).rangeErrString ++ lit " out of range"⟩
      else if (parseElem std (skip value pfx).1 fs).ok = false then
        Except.error ⟨timeLayout, av, std.text, (parseElem std (skip value pfx).1 fs).hold, []⟩
      else
        parseLoop av chunks (parseElem std (skip value pfx).1 fs).value
          (parseElem std (skip value pfx).1 fs).fields := by
  rw [parseLoop]
  simp only [Bool.not_eq_true']

/-- The round of the year. -/
theorem chunk_year (av : GoString) (chunks : List (GoString × Std)) (v : GoString) (fs : Fields) :
    match fourDigits v with
    | none => ∃ e, parseLoop av (([], Std.stdLongYear) :: chunks) v fs = Except.error e
    | some (y, rest) =>
      parseLoop av (([], Std.stdLongYear) :: chunks) v fs =
        parseLoop av chunks rest { fs with year := y } := by
  rw [parseLoop_cons, skip_nil]
  cases h : fourDigits v with
  | none =>
    obtain ⟨h1, h2⟩ := parseElem_year_none v fs h
    simp [h1, h2]
  | some p =>
    obtain ⟨y, rest⟩ := p
    simp [parseElem_year_some v fs y rest h]

/-- The round of the month. -/
theorem chunk_month (av : GoString) (chunks : List (GoString × Std)) (v : GoString)
    (fs : Fields) :
    match expect 45 v with
    | none => ∃ e, parseLoop av (([45], Std.stdZeroMonth) :: chunks) v fs = Except.error e
    | some v1 =>
      match twoDigits v1 with
      | none => ∃ e, parseLoop av (([45], Std.stdZeroMonth) :: chunks) v fs = Except.error e
      | some (n, rest) =>
        if 1 ≤ n ∧ n ≤ 12 then
          parseLoop av (([45], Std.stdZeroMonth) :: chunks) v fs =
            parseLoop av chunks rest { fs with month := n }
        else ∃ e, parseLoop av (([45], Std.stdZeroMonth) :: chunks) v fs = Except.error e := by
  rw [parseLoop_cons, skip_byte 45 (by decide)]
  cases h1 : expect 45 v with
  | none => simp
  | some v1 =>
    simp only
    cases h2 : twoDigits v1 with
    | none => simp [parseElem, getnum_fixed, h2]
    | some p =>
      obtain ⟨n, rest⟩ := p
      have hne : lit "month" ≠ [] := by decide
      by_cases hr : 1 ≤ n ∧ n ≤ 12
      · have hr' : ¬ (n ≤ 0 ∨ 12 < n) := by omega
        simp [parseElem, getnum_fixed, h2, hr, hr']
      · have hr' : n ≤ 0 ∨ 12 < n := by omega
        simp [parseElem, getnum_fixed, h2, hr, hr', hne]

/-- The round of the day. -/
theorem chunk_day (av : GoString) (chunks : List (GoString × Std)) (v : GoString)
    (fs : Fields) :
    match expect 45 v with
    | none => ∃ e, parseLoop av (([45], Std.stdZeroDay) :: chunks) v fs = Except.error e
    | some v1 =>
      match twoDigits v1 with
      | none => ∃ e, parseLoop av (([45], Std.stdZeroDay) :: chunks) v fs = Except.error e
      | some (n, rest) =>
        parseLoop av (([45], Std.stdZeroDay) :: chunks) v fs =
          parseLoop av chunks rest { fs with day := n } := by
  rw [parseLoop_cons, skip_byte 45 (by decide)]
  cases h1 : expect 45 v with
  | none => simp
  | some v1 =>
    simp only
    cases h2 : twoDigits v1 with
    | none => simp [parseElem, getnum_fixed, h2]
    | some p =>
      obtain ⟨n, rest⟩ := p
      simp [parseElem, getnum_fixed, h2]

/-- The round of the hour. -/
theorem chunk_hour (av : GoString) (chunks : List (GoString × Std)) (v : GoString)
    (fs : Fields) :
    match spaces v with
    | none => ∃ e, parseLoop av (([32], Std.stdHour) :: chunks) v fs = Except.error e
    | some v1 =>
      match oneOrTwoDigits v1 with
      | none => ∃ e, parseLoop av (([32], Std.stdHour) :: chunks) v fs = Except.error e
      | some (n, rest) =>
        if n < 24 then
          parseLoop av (([32], Std.stdHour) :: chunks) v fs =
            parseLoop av chunks rest { fs with hour := n }
        else ∃ e, parseLoop av (([32], Std.stdHour) :: chunks) v fs = Except.error e := by
  rw [parseLoop_cons, skip_space]
  match v with
  | [] => simp [spaces, parseElem, getnum_free, oneOrTwoDigits]
  | x :: xs =>
    by_cases hx : x = 32
    · subst hx
      have hsp : spaces (32 :: xs) = some (cutspace (32 :: xs)) := by
        simp [spaces, cutspace]
      rw [hsp]
      simp only [if_true]
      cases h2 : oneOrTwoDigits (cutspace (32 :: xs)) with
      | none => simp [parseElem, getnum_free, h2]
      | some p =>
        obtain ⟨n, rest⟩ := p
        have h0 := oneOrTwoDigits_nonneg h2
        have hne : lit "hour" ≠ [] := by decide
        by_cases hr : n < 24
        · have hr' : ¬ (n < 0 ∨ 24 ≤ n) := by omega
          simp [parseElem, getnum_free, h2, hr, hr']
        · have hr' : n < 0 ∨ 24 ≤ n := by omega
          simp [parseElem, getnum_free, h2, hr, hr', hne]
    · simp [spaces, hx]

/-- The round of the minutes. -/
theorem chunk_minute (av : GoString) (chunks : List (GoString × Std)) (v : GoString)
    (fs : Fields) :
    match expect 58 v with
    | none => ∃ e, parseLoop av (([58], Std.stdZeroMinute) :: chunks) v fs = Except.error e
    | some v1 =>
      match twoDigits v1 with
      | none => ∃ e, parseLoop av (([58], Std.stdZeroMinute) :: chunks) v fs = Except.error e
      | some (n, rest) =>
        if n < 60 then
          parseLoop av (([58], Std.stdZeroMinute) :: chunks) v fs =
            parseLoop av chunks rest { fs with min := n }
        else ∃ e, parseLoop av (([58], Std.stdZeroMinute) :: chunks) v fs = Except.error e := by
  rw [parseLoop_cons, skip_byte 58 (by decide)]
  cases h1 : expect 58 v with
  | none => simp
  | some v1 =>
    simp only
    cases h2 : twoDigits v1 with
    | none => simp [parseElem, getnum_fixed, h2]
    | some p =>
      obtain ⟨n, rest⟩ := p
      have h0 := twoDigits_nonneg h2
      have hne : lit "minute" ≠ [] := by decide
      by_cases hr : n < 60
      · have hr' : ¬ (n < 0 ∨ 60 ≤ n) := by omega
        simp [parseElem, getnum_fixed, h2, hr, hr']
      · have hr' : n < 0 ∨ 60 ≤ n := by omega
        simp [parseElem, getnum_fixed, h2, hr, hr', hne]

/-- The round of the seconds, the last one. -/
theorem chunk_second (av : GoString) (v : GoString) (fs : Fields) :
    match expect 58 v with
    | none => ∃ e, parseLoop av [([58], Std.stdZeroSecond)] v fs = Except.error e
    | some v1 =>
      match twoDigits v1 with
      | none => ∃ e, parseLoop av [([58], Std.stdZeroSecond)] v fs = Except.error e
      | some (n, rest) =>
        if n < 60 ∧ optFraction rest = true then
          ∃ ns, parseLoop av [([58], Std.stdZeroSecond)] v fs =
            Except.ok { fs with sec := n, nsec := ns }
        else ∃ e, parseLoop av [([58], Std.stdZeroSecond)] v fs = Except.error e := by
  rw [parseLoop_cons, skip_byte 58 (by decide)]
  cases h1 : expect 58 v with
  | none => simp
  | some v1 =>
    simp only
    cases h2 : twoDigits v1 with
    | none => simp [parseElem, getnum_fixed, h2]
    | some p =>
      obtain ⟨n, rest⟩ := p
      have h0 := twoDigits_nonneg h2
      have hne : lit "second" ≠ [] := by decide
      by_cases hr : n < 60
      · obtain ⟨ns, rest', hel, hiff⟩ := parseElem_second_some v1 fs n rest h2 hr
        by_cases hf : optFraction rest = true
        · have hrest : rest' = [] := hiff.2 hf
          subst hrest
          simp only [hr, hf, and_self, if_true, Bool.true_eq_false, if_false, hel, ne_eq,
            not_true_eq_false]
          exact ⟨ns, by simp [parseLoop]⟩
        · have hrest : rest' ≠ [] := fun hh => hf (hiff.1 hh)
          simp only [hr, hf, and_false, if_false, Bool.true_eq_false, hel, ne_eq,
            not_true_eq_false]
          simp [parseLoop, hrest]
      · have hr' : n < 0 ∨ 60 ≤ n := by omega
        simp only [hr, false_and, if_false]
        have hg := getnum_fixed v1
        rw [h2] at hg
        simp only at hg
        simp [parseElem, hg, hr', hne]

/-! ## The texts `time.Parse` accepts -/

theorem datePart_eq_some (s : GoString) (y m d : Int) (rest : GoString) :
    datePart s = some (y, m, d, rest) ↔
      ∃ s1 s2 s3 s4, fourDigits s = some (y, s1) ∧ expect 45 s1 = some s2 ∧
        twoDigits s2 = some (m, s3) ∧ expect 45 s3 = some s4 ∧ twoDigits s4 = some (d, rest) := by
  unfold datePart
  simp only [Option.bind_eq_bind, Option.bind_eq_some, Prod.exists, Option.some.injEq,
    Prod.mk.injEq]
  constructor
  · rintro ⟨y', s1, h1, s2, h2, m', s3, h3, s4, h4, d', s5, h5, rfl, rfl, rfl, rfl⟩
    exact ⟨s1, s2, s3, s4, h1, h2, h3, h4, h5⟩
  · rintro ⟨s1, s2, s3, s4, h1, h2, h3, h4, h5⟩
    exact ⟨y, s1, h1, s2, h2, m, s3, h3, s4, h4, d, rest, h5, rfl, rfl, rfl, rfl⟩

theorem minSecPart_eq_some (s : GoString) (mi se : Int) (rest : GoString) :
    minSecPart s = some (mi, se, rest) ↔
      ∃ s1 s2 s3, expect 58 s = some s1 ∧ twoDigits s1 = some (mi, s2) ∧
        expect 58 s2 = some s3 ∧ twoDigits s3 = some (se, rest) := by
  unfold minSecPart
  simp only [Option.bind_eq_bind, Option.bind_eq_some, Prod.exists, Option.some.injEq,
    Prod.mk.injEq]
  constructor
  · rintro ⟨s1, h1, mi', s2, h2, s3, h3, se', s4, h4, rfl, rfl, rfl⟩
    exact ⟨s1, s2, s3, h1, h2, h3, h4⟩
  · rintro ⟨s1, s2, s3, h1, h2, h3, h4⟩
    exact ⟨s1, h1, mi, s2, h2, s3, h3, se, rest, h4, rfl, rfl, rfl⟩

theorem lenientLayout_eq_some (s : GoString) (y m d h mi se : Int) :
    lenientLayout s = some (y, m, d, h, mi, se) ↔
      ∃ s1 s2 s3 s4, datePart s = some (y, m, d, s1) ∧ spaces s1 = some s2 ∧
        oneOrTwoDigits s2 = some (h, s3) ∧ minSecPart s3 = some (mi, se, s4) ∧
        optFraction s4 = true ∧ validDateTime y m d h mi se = true := by
  unfold lenientLayout
  simp only [Option.bind_eq_bind, Option.bind_eq_some, Prod.exists, Option.ite_none_right_eq_some,
    Option.some.injEq, Prod.mk.injEq]
  constructor
  · rintro ⟨y', m', d', s1, h1, s2, h2, h', s3, h3, mi', se', s4, h4, ⟨hf, hv⟩,
      rfl, rfl, rfl, rfl, rfl, rfl⟩
    exact ⟨s1, s2, s3, s4, h1, h2, h3, h4, hf, hv⟩
  · rintro ⟨s1, s2, s3, s4, h1, h2, h3, h4, hf, hv⟩
    exact ⟨y, m, d, s1, h1, s2, h2, h, s3, h3, mi, se, s4, h4, ⟨hf, hv⟩, rfl, rfl, rfl, rfl, rfl, rfl⟩

/-- The table of `time.daysIn` gives the lengths of the months. -/
theorem daysIn_eq_monthLength (year month : Int) (h1 : 1 ≤ month) (h12 : month ≤ 12) :
    daysIn month year = monthLength year month := by
  have hm : month = 1 ∨ month = 2 ∨ month = 3 ∨ month = 4 ∨ month = 5 ∨ month = 6 ∨ month = 7 ∨
      month = 8 ∨ month = 9 ∨ month = 10 ∨ month = 11 ∨ month = 12 := by omega
  rcases hm with h | h | h | h | h | h | h | h | h | h | h | h <;> subst h <;>
    cases hl : isLeap year <;> simp [daysIn, monthLength, daysBefore, hl]

/-- `Parse` after its loop: the check of the day of the month. -/
theorem Parse_of_loop (s : GoString) :
    Parse s = match parseLoop s
        [([], Std.stdLongYear), ([45], Std.stdZeroMonth), ([45], Std.stdZeroDay),
          ([32], Std.stdHour), ([58], Std.stdZeroMinute), ([58], Std.stdZeroSecond)] s {} with
      | Except.error e => Except.error e
      | Except.ok fs =>
        if fs.day < 1 ∨ fs.day > daysIn fs.month fs.year then
          Except.error ⟨timeLayout, s, [], [], lit ": day out of range"⟩
        else Except.ok (Date fs.year fs.month fs.day fs.hour fs.min fs.sec fs.nsec) := by
  rw [Parse, layoutChunks_eq]

/-- A text of the lenient layout is parsed, to the date and time its six
numbers denote. -/
theorem Parse_of_lenientLayout (s : GoString) (y m d h mi se : Int)
    (hl : lenientLayout s = some (y, m, d, h, mi, se)) :
    ∃ ns, Parse s = Except.ok (Date y m d h mi se ns) := by
  obtain ⟨s5, s6, s7, s11, hdate, h6, h7, hms, hfrac, hvalid⟩ :=
    (lenientLayout_eq_some s y m d h mi se).1 hl
  obtain ⟨s1, s2, s3, s4, h1, h2, h3, h4, h5⟩ := (datePart_eq_some s y m d s5).1 hdate
  obtain ⟨s8, s9, s10, h8, h9, h10, h11⟩ := (minSecPart_eq_some s7 mi se s11).1 hms
  simp only [validDateTime, decide_eq_true_eq] at hvalid
  obtain ⟨hm1, hm12, hd1, hdm, hh, hmin, hsec⟩ := hvalid
  have c1 := chunk_year s
    [([45], Std.stdZeroMonth), ([45], Std.stdZeroDay), ([32], Std.stdHour),
      ([58], Std.stdZeroMinute), ([58], Std.stdZeroSecond)] s {}
  rw [h1] at c1
  simp only at c1
  have c2 := chunk_month s
    [([45], Std.stdZeroDay), ([32], Std.stdHour), ([58], Std.stdZeroMinute),
      ([58], Std.stdZeroSecond)] s1 { ({} : Fields) with year := y }
  rw [h2] at c2
  simp only [h3] at c2
  rw [if_pos ⟨hm1, hm12⟩] at c2
  have c3 := chunk_day s
    [([32], Std.stdHour), ([58], Std.stdZeroMinute), ([58], Std.stdZeroSecond)] s3
    { ({} : Fields) with year := y, month := m }
  rw [h4] at c3
  simp only [h5] at c3
  have c4 := chunk_hour s [([58], Std.stdZeroMinute), ([58], Std.stdZeroSecond)] s5
    { ({} : Fields) with year := y, month := m, day := d }
  rw [h6] at c4
  simp only [h7] at c4
  rw [if_pos hh] at c4
  have c5 := chunk_minute s [([58], Std.stdZeroSecond)] s7
    { ({} : Fields) with year := y, month := m, day := d, hour := h }
  rw [h8] at c5
  simp only [h9] at c5
  rw [if_pos hmin] at c5
  have c6 := chunk_second s s9
    { ({} : Fields) with year := y, month := m, day := d, hour := h, min := mi }
  rw [h10] at c6
  simp only [h11] at c6
  rw [if_pos ⟨hsec, hfrac⟩] at c6
  obtain ⟨ns, c6⟩ := c6
  refine ⟨ns, ?_⟩
  rw [Parse_of_loop, c1, c2, c3, c4, c5, c6]
  simp only
  rw [daysIn_eq_monthLength y m hm1 hm12, if_neg (by omega)]

/-- A text that is parsed is of the lenient layout, and the time is the one
its six numbers denote. -/
theorem lenientLayout_of_Parse (s : GoString) (t : Time) (hP : Parse s = Except.ok t) :
    ∃ y m d h mi se ns, lenientLayout s = some (y, m, d, h, mi, se) ∧
      t = Date y m d h mi se ns := by
  rw [Parse_of_loop] at hP
  have c1 := chunk_year s
    [([45], Std.stdZeroMonth), ([45], Std.stdZeroDay), ([32], Std.stdHour),
      ([58], Std.stdZeroMinute), ([58], Std.stdZeroSecond)] s {}
  cases h1 : fourDigits s with
  | none =>
    rw [h1] at c1
    obtain ⟨e, he⟩ := c1
    rw [he] at hP
    cases hP
  | some p1 =>
  obtain ⟨y, s1⟩ := p1
  rw [h1] at c1
  simp only at c1
  rw [c1] at hP
  have c2 := chunk_month s
    [([45], Std.stdZeroDay), ([32], Std.stdHour), ([58], Std.stdZeroMinute),
      ([58], Std.stdZeroSecond)] s1 { ({} : Fields) with year := y }
  cases h2 : expect 45 s1 with
  | none =>
    rw [h2] at c2
    obtain ⟨e, he⟩ := c2
    rw [he] at hP
    cases hP
  | some s2 =>
  rw [h2] at c2
  cases h3 : twoDigits s2 with
  | none =>
    simp only [h3] at c2
    obtain ⟨e, he⟩ := c2
    rw [he] at hP
    cases hP
  | some p3 =>
  obtain ⟨m, s3⟩ := p3
  simp only [h3] at c2
  by_cases hm : 1 ≤ m ∧ m ≤ 12
  swap
  · rw [if_neg hm] at c2
    obtain ⟨e, he⟩ := c2
    rw [he] at hP
    cases hP
  rw [if_pos hm] at c2
  rw [c2] at hP
  have c3 := chunk_day s
    [([32], Std.stdHour), ([58], Std.stdZeroMinute), ([58], Std.stdZeroSecond)] s3
    { ({} : Fields) with year := y, month := m }
  cases h4 : expect 45 s3 with
  | none =>
    rw [h4] at c3
    obtain ⟨e, he⟩ := c3
    rw [he] at hP
    cases hP
  | some s4 =>
  rw [h4] at c3
  cases h5 : twoDigits s4 with
  | none =>
    simp only [h5] at c3
    obtain ⟨e, he⟩ := c3
    rw [he] at hP
    cases hP
  | some p5 =>
  obtain ⟨d, s5⟩ := p5
  simp only [h5] at c3
  rw [c3] at hP
  have c4 := chunk_hour s [([58], Std.stdZeroMinute), ([58], Std.stdZeroSecond)] s5
    { ({} : Fields) with year := y, month := m, day := d }
  cases h6 : spaces s5 with
  | none =>
    rw [h6] at c4
    obtain ⟨e, he⟩ := c4
    rw [he] at hP
    cases hP
  | some s6 =>
  rw [h6] at c4
  cases h7 : oneOrTwoDigits s6 with
  | none =>
    simp only [h7] at c4
    obtain ⟨e, he⟩ := c4
    rw [he] at hP
    cases hP
  | some p7 =>
  obtain ⟨h, s7⟩ := p7
  simp only [h7] at c4
  by_cases hh : h < 24
  swap
  · rw [if_neg hh] at c4
    obtain ⟨e, he⟩ := c4
    rw [he] at hP
    cases hP
  rw [if_pos hh] at c4
  rw [c4] at hP
  have c5 := chunk_minute s [([58], Std.stdZeroSecond)] s7
    { ({} : Fields) with year := y, month := m, day := d, hour := h }
  cases h8 : expect 58 s7 with
  | none =>
    rw [h8] at c5
    obtain ⟨e, he⟩ := c5
    rw [he] at hP
    cases hP
  | some s8 =>
  rw [h8] at c5
  cases h9 : twoDigits s8 with
  | none =>
    simp only [h9] at c5
    obtain ⟨e, he⟩ := c5
    rw [he] at hP
    cases hP
  | some p9 =>
  obtain ⟨mi, s9⟩ := p9
  simp only [h9] at c5
  by_cases hmin : mi < 60
  swap
  · rw [if_neg hmin] at c5
    obtain ⟨e, he⟩ := c5
    rw [he] at hP
    cases hP
  rw [if_pos hmin] at c5
  rw [c5] at hP
  have c6 := chunk_second s s9
    { ({} : Fields) with year := y, month := m, day := d, hour := h, min := mi }
  cases h10 : expect 58 s9 with
  | none =>
    rw [h10] at c6
    obtain ⟨e, he⟩ := c6
    rw [he] at hP
    cases hP
  | some s10 =>
  rw [h10] at c6
  cases h11 : twoDigits s10 with
  | none =>
    simp only [h11] at c6
    obtain ⟨e, he⟩ := c6
    rw [he] at hP
    cases hP
  | some p11 =>
  obtain ⟨se, s11⟩ := p11
  simp only [h11] at c6
  by_cases hsec : se < 60 ∧ optFraction s11 = true
  swap
  · rw [if_neg hsec] at c6
    obtain ⟨e, he⟩ := c6
    rw [he] at hP
    cases hP
  rw [if_pos hsec] at c6
  obtain ⟨ns, c6⟩ := c6
  rw [c6] at hP
  simp only at hP
  rw [daysIn_eq_monthLength y m hm.1 hm.2] at hP
  by_cases hday : d < 1 ∨ d > monthLength y m
  · rw [if_pos hday] at hP
    cases hP
  · rw [if_neg hday] at hP
    refine ⟨y, m, d, h, mi, se, ns, ?_, ?_⟩
    · rw [lenientLayout_eq_some]
      refine ⟨s5, s6, s7, s11, ?_, h6, h7, ?_, hsec.2, ?_⟩
      · exact (datePart_eq_some s y m d s5).2 ⟨s1, s2, s3, s4, h1, h2, h3, h4, h5⟩
      · exact (minSecPart_eq_some s7 mi se s11).2 ⟨s8, s9, s10, h8, h9, h10, h11⟩
      · simp only [validDateTime, decide_eq_true_eq]
        refine ⟨hm.1, hm.2, ?_, ?_, hh, hmin, hsec.1⟩ <;> omega
    · cases hP
      rfl

/-- The texts `time.Parse` accepts under the layout of `setTimes` are exactly
those of the lenient layout. -/
theorem Parse_ok_iff_lenientLayout (s : GoString) :
    (∃ t, Parse s = Except.ok t) ↔ (lenientLayout s).isSome = true := by
  constructor
  · rintro ⟨t, ht⟩
    obtain ⟨y, m, d, h, mi, se, ns, hl, _⟩ := lenientLayout_of_Parse s t ht
    rw [hl]
    rfl
  · intro hs
    cases hl : lenientLayout s with
    | none =>
      rw [hl] at hs
      cases hs
    | some v =>
      obtain ⟨y, m, d, h, mi, se⟩ := v
      obtain ⟨ns, hns⟩ := Parse_of_lenientLayout s y m d h mi se hl
      exact ⟨_, hns⟩

theorem fixedLayout_eq_some (s : GoString) (y m d h mi se : Int) :
    fixedLayout s = some (y, m, d, h, mi, se) ↔
      ∃ s1 s2 s3, datePart s = some (y, m, d, s1) ∧ expect 32 s1 = some s2 ∧
        twoDigits s2 = some (h, s3) ∧ minSecPart s3 = some (mi, se, []) ∧
        validDateTime y m d h mi se = true := by
  unfold fixedLayout
  simp only [Option.bind_eq_bind, Option.bind_eq_some, Prod.exists, Option.ite_none_right_eq_some,
    Option.some.injEq, Prod.mk.injEq]
  constructor
  · rintro ⟨y', m', d', s1, h1, s2, h2, h', s3, h3, mi', se', s4, h4, ⟨rfl, hv⟩,
      rfl, rfl, rfl, rfl, rfl, rfl⟩
    exact ⟨s1, s2, s3, h1, h2, h3, h4, hv⟩
  · rintro ⟨s1, s2, s3, h1, h2, h3, h4, hv⟩
    exact ⟨y, m, d, s1, h1, s2, h2, h, s3, h3, mi, se, [], h4, ⟨rfl, hv⟩, rfl, rfl, rfl, rfl, rfl,
      rfl⟩

/-- Every text of the fixed layout is one of the lenient layout, with the
same six numbers. -/
theorem lenientLayout_of_fixedLayout (s : GoString) (v : Int × Int × Int × Int × Int × Int)
    (hfix : fixedLayout s = some v) : lenientLayout s = some v := by
  obtain ⟨y, m, d, h, mi, se⟩ := v
  obtain ⟨s1, s2, s3, hdate, hsp, hh, hms, hv⟩ := (fixedLayout_eq_some s y m d h mi se).1 hfix
  rw [lenientLayout_eq_some]
  match s1, hsp with
  | x :: rest, hsp =>
    simp only [expect] at hsp
    split at hsp
    · rename_i hx
      simp only [Option.some.injEq] at hsp
      subst hsp hx
      match rest, hh with
      | a :: b :: r, hh =>
        simp only [twoDigits] at hh
        split at hh
        · rename_i hd
          simp only [Option.some.injEq, Prod.mk.injEq] at hh
          obtain ⟨rfl, rfl⟩ := hh
          have ha : a ≠ 32 := by
            rintro rfl
            exact absurd hd.1 (by decide)
          refine ⟨32 :: a :: b :: r, a :: b :: r, r, [], hdate, ?_, ?_, hms, rfl, hv⟩
          · simp [spaces, cutspace, ha]
          · simp [oneOrTwoDigits, hd.1, hd.2]
        · cases hh
    · cases hsp

/-- C8, as the code has it: with a known field and the other bound
acceptable, construction succeeds if the string is exactly "now" or a text of
the lenient layout (the fixed layout `YYYY-MM-DD HH:MM:SS` with a valid date
and time, where the date and the time may be separated by several spaces, the
hour may have one digit and a fraction of a second may follow), and fails with
an error and no stage for every other string; this holds for the start and for
the end string. Every text of the fixed layout is of the lenient one. -/
theorem construction_accepts_now_or_lenient_layout (fmtQuote quote : GoString → GoString)
    (nowStart nowEnd : Time) (FieldByName : GoString → FieldIndex × Bool)
    (field : GoString) (idx : FieldIndex) (s other : GoString)
    (hknown : FieldByName field = (idx, true))
    (hother : other = lit "now" ∨ (lenientLayout other).isSome = true) :
    ((s = lit "now" ∨ (lenientLayout s).isSome = true) →
      (∃ f, NewTimestampRange fmtQuote quote nowStart nowEnd
          ⟨some ⟨s, other, field⟩, FieldByName⟩ = (some f, none)) ∧
      (∃ f, NewTimestampRange fmtQuote quote nowStart nowEnd
          ⟨some ⟨other, s, field⟩, FieldByName⟩ = (some f, none))) ∧
    (¬ (s = lit "now" ∨ (lenientLayout s).isSome = true) →
      (∃ err, NewTimestampRange fmtQuote quote nowStart nowEnd
          ⟨some ⟨s, other, field⟩, FieldByName⟩ = (none, some err)) ∧
      (∃ err, NewTimestampRange fmtQuote quote nowStart nowEnd
          ⟨some ⟨other, s, field⟩, FieldByName⟩ = (none, some err))) ∧
    (∀ v, fixedLayout s = some v → lenientLayout s = some v) := by
  have resolve : ∀ (x : GoString) (now : Time),
      (x = lit "now" ∨ (lenientLayout x).isSome = true) →
      ∃ a, (x = lit "now" ∧ a = now.Unix) ∨
        (x ≠ lit "now" ∧ ∃ t, Parse x = Except.ok t ∧ a = t.Unix) := by
    intro x now hx
    by_cases hnow : x = lit "now"
    · exact ⟨now.Unix, Or.inl ⟨hnow, rfl⟩⟩
    · rcases hx with hx | hx
      · exact absurd hx hnow
      · obtain ⟨t, ht⟩ := (Parse_ok_iff_lenientLayout x).2 hx
        exact ⟨t.Unix, Or.inr ⟨hnow, t, ht, rfl⟩⟩
  have reject : ∀ (x : GoString), ¬ (x = lit "now" ∨ (lenientLayout x).isSome = true) →
      x ≠ lit "now" ∧ ∃ e, Parse x = Except.error e := by
    intro x hx
    refine ⟨fun h => hx (Or.inl h), ?_⟩
    cases hp : Parse x with
    | error e => exact ⟨e, rfl⟩
    | ok t => exact absurd (Or.inr ((Parse_ok_iff_lenientLayout x).1 ⟨t, hp⟩)) hx
  refine ⟨?_, ?_, lenientLayout_of_fixedLayout s⟩
  · intro hs
    obtain ⟨a, ha⟩ := resolve s nowStart hs
    obtain ⟨a', ha'⟩ := resolve s nowEnd hs
    obtain ⟨b, hb⟩ := resolve other nowEnd hother
    obtain ⟨b', hb'⟩ := resolve other nowStart hother
    refine ⟨⟨⟨0, 0, a, b, idx⟩, ?_⟩, ⟨⟨0, 0, b', a', idx⟩, ?_⟩⟩
    · rw [NewTimestampRange_known fmtQuote quote nowStart nowEnd _ FieldByName idx hknown,
        setTimes_ok quote nowStart nowEnd _ _ _ a b ha hb]
    · rw [NewTimestampRange_known fmtQuote quote nowStart nowEnd _ FieldByName idx hknown,
        setTimes_ok quote nowStart nowEnd _ _ _ b' a' hb' ha']
  · intro hs
    obtain ⟨hnow, e, he⟩ := reject s hs
    obtain ⟨b', hb'⟩ := resolve other nowStart hother
    refine ⟨⟨lit "start time is invalid: " ++ e.Error quote, ?_⟩,
      ⟨lit "end time is invalid: " ++ e.Error quote, ?_⟩⟩
    · rw [NewTimestampRange_known fmtQuote quote nowStart nowEnd _ FieldByName idx hknown,
        setTimes_start_invalid quote nowStart nowEnd _ _ _ e hnow he]
    · rw [NewTimestampRange_known fmtQuote quote nowStart nowEnd _ FieldByName idx hknown,
        setTimes_end_invalid quote nowStart nowEnd _ _ _ b' e hb' hnow he]

/-- Witness of C8: as start string, an hour of one digit is
accepted and "NOW" in capitals and a timezone suffix are refused. -/
theorem construction_accepts_now_or_lenient_layout_witness :
    tsResolver (lit "ts") = (0, true) ∧
    (lenientLayout (lit "2020-01-02 00:00:00")).isSome = true ∧
    (lenientLayout (lit "2020-01-01 0:00:00")).isSome = true ∧
    (∃ f, NewTimestampRange id id ⟨0, 0⟩ ⟨0, 0⟩
      ⟨some ⟨lit "2020-01-01 0:00:00", lit "2020-01-02 00:00:00", lit "ts"⟩, tsResolver⟩ =
        (some f, none)) ∧
    ¬ (lit "NOW" = lit "now" ∨ (lenientLayout (lit "NOW")).isSome = true) ∧
    (∃ err, NewTimestampRange id id ⟨0, 0⟩ ⟨0, 0⟩
      ⟨some ⟨lit "NOW", lit "2020-01-02 00:00:00", lit "ts"⟩, tsResolver⟩ = (none, some err)) ∧
    ¬ (lit "2020-01-01 00:00:00Z" = lit "now" ∨
      (lenientLayout (lit "2020-01-01 00:00:00Z")).isSome = true) ∧
    (∃ err, NewTimestampRange id id ⟨0, 0⟩ ⟨0, 0⟩
      ⟨some ⟨lit "2020-01-01 00:00:00Z", lit "2020-01-02 00:00:00", lit "ts"⟩, tsResolver⟩ =
        (none, some err)) :=
  ⟨by decide, by decide, by decide,
    ((construction_accepts_now_or_lenient_layout id id ⟨0, 0⟩ ⟨0, 0⟩ tsResolver (lit "ts") 0
      (lit "2020-01-01 0:00:00") (lit "2020-01-02 00:00:00") (by decide)
      (Or.inr (by decide))).1 (Or.inr (by decide))).1,
    by decide,
    ((construction_accepts_now_or_lenient_layout id id ⟨0, 0⟩ ⟨0, 0⟩ tsResolver (lit "ts") 0
      (lit "NOW") (lit "2020-01-02 00:00:00") (by decide)
      (Or.inr (by decide))).2.1 (by decide)).1,
    by decide,
    ((construction_accepts_now_or_lenient_layout id id ⟨0, 0⟩ ⟨0, 0⟩ tsResolver (lit "ts") 0
      (lit "2020-01-01 00:00:00Z") (lit "2020-01-02 00:00:00") (by decide)
      (Or.inr (by decide))).2.1 (by decide)).1⟩

/-- Counterexample to C8 as stated: a start string with an hour of one digit,
and one with a fraction after the seconds, are not of the fixed layout and are
not "now", and construction succeeds with them. -/
theorem one_digit_hour_and_fraction_are_accepted :
    fixedLayout (lit "2020-01-01 0:00:00") = none ∧
    lit "2020-01-01 0:00:00" ≠ lit "now" ∧
    NewTimestampRange id id ⟨0, 0⟩ ⟨0, 0⟩
        ⟨some ⟨lit "2020-01-01 0:00:00", lit "2020-01-02 00:00:00", lit "ts"⟩, tsResolver⟩ =
      (some stageDay, none) ∧
    fixedLayout (lit "2020-01-01 00:00:00.5") = none ∧
    lit "2020-01-01 00:00:00.5" ≠ lit "now" ∧
    NewTimestampRange id id ⟨0, 0⟩ ⟨0, 0⟩
        ⟨some ⟨lit "2020-01-01 00:00:00.5", lit "2020-01-02 00:00:00", lit "ts"⟩, tsResolver⟩ =
      (some stageDay, none) :=
  ⟨by decide, by decide, by decide, by decide, by decide, by decide⟩

/-! ## The bounds never change -/

/-- `Process` leaves the bounds and the field index as they are. -/
theorem Process_frame {σ : Type} (f : TimestampRange) (l : Record) (next : Record → σ → σ)
    (down : σ) :
    (Process f l next down).1.startDate = f.startDate ∧
    (Process f l next down).1.endDate = f.endDate ∧
    (Process f l next down).1.fidx = f.fidx := by
  unfold Process
  simp only
  split
  · simp
  · split <;> simp

/-- A sequence of `Process` calls leaves the bounds and the field index as
they are. -/
theorem run_frame (ls : List Record) (f : TimestampRange) (log : List Record) :
    (run f log ls).1.startDate = f.startDate ∧
    (run f log ls).1.endDate = f.endDate ∧
    (run f log ls).1.fidx = f.fidx := by
  induction ls generalizing f log with
  | nil => simp [run]
  | cons l ls ih =>
    have h1 := Process_frame f l record log
    have h2 := ih (Process f l record log).1 (Process f l record log).2
    simp only [run]
    exact ⟨h2.1.trans h1.1, h2.2.1.trans h1.2.1, h2.2.2.trans h1.2.2⟩

/-- C11: `Stats` returns the pair of the current processed and rejected
counters and leaves the stage as it is, so that a second `Stats` call right
after the first returns the same pair. -/
theorem stats_is_a_snapshot (f : TimestampRange) :
    (StatsCall f).2 =
      { NumProcessedLines := f.numProcessedLines, NumFilteredLines := f.numFilteredLines } ∧
    (StatsCall f).1 = f ∧
    (StatsCall (StatsCall f).1).2 = (StatsCall f).2 := by
  refine ⟨rfl, rfl, rfl⟩

/-- The configuration `NewTimestampRange` works with: the decoded one, or the
empty one when there is none. -/
theorem NewTimestampRange_config (fmtQuote quote : GoString → GoString) (nowStart nowEnd : Time)
    (cfg : FilterParams) :
    NewTimestampRange fmtQuote quote nowStart nowEnd cfg =
      NewTimestampRange fmtQuote quote nowStart nowEnd
        ⟨some (cfg.DecodedConfig.getD {}), cfg.FieldByName⟩ := by
  cases h : cfg.DecodedConfig <;> simp [NewTimestampRange, h]

/-- What `setTimes` has done when it returns no error. -/
theorem setTimes_ok_inv (quote : GoString → GoString) (nowStart nowEnd : Time)
    (f g : TimestampRange) (start end' : GoString)
    (h : setTimes quote nowStart nowEnd f start end' = (g, none)) :
    ((start = lit "now" ∧ g.startDate = nowStart.Unix) ∨
      (start ≠ lit "now" ∧ ∃ t, Parse start = Except.ok t ∧ g.startDate = t.Unix)) ∧
    ((end' = lit "now" ∧ g.endDate = nowEnd.Unix) ∨
      (end' ≠ lit "now" ∧ ∃ t, Parse end' = Except.ok t ∧ g.endDate = t.Unix)) := by
  unfold setTimes at h
  by_cases hs : start = lit "now"
  · by_cases he : end' = lit "now"
    · simp only [hs, he, if_true, Prod.mk.injEq, and_true] at h
      subst h
      exact ⟨Or.inl ⟨hs, rfl⟩, Or.inl ⟨he, rfl⟩⟩
    · cases hq : Parse end' with
      | error e => simp [hs, he, hq] at h
      | ok u =>
        simp only [hs, he, hq, if_true, if_false, Prod.mk.injEq, and_true] at h
        subst h
        exact ⟨Or.inl ⟨hs, rfl⟩, Or.inr ⟨he, u, rfl, rfl⟩⟩
  · cases hp : Parse start with
    | error e => simp [hs, hp] at h
    | ok t =>
      by_cases he : end' = lit "now"
      · simp only [hs, he, hp, if_true, if_false, Prod.mk.injEq, and_true] at h
        subst h
        exact ⟨Or.inr ⟨hs, t, rfl, rfl⟩, Or.inl ⟨he, rfl⟩⟩
      · cases hq : Parse end' with
        | error e => simp [hs, he, hp, hq] at h
        | ok u =>
          simp only [hs, he, hp, hq, if_false, Prod.mk.injEq, and_true] at h
          subst h
          exact ⟨Or.inr ⟨hs, t, rfl, rfl⟩, Or.inr ⟨he, u, rfl, rfl⟩⟩

/-- `setTimes` returns an error or none; in the second case the pair it
returns is the stage with the error component nil. -/
theorem setTimes_none_eq (quote : GoString → GoString) (nowStart nowEnd : Time)
    (f : TimestampRange) (start end' : GoString)
    (h : (setTimes quote nowStart nowEnd f start end').2 = none) :
    setTimes quote nowStart nowEnd f start end' =
      ((setTimes quote nowStart nowEnd f start end').1, none) :=
  Prod.ext rfl h

/-- C12: a successful construction yields the stage whose field index is the
one the resolver returned for the configured field, whose bounds are the epoch
seconds of the two datetime strings (of the clock reading for "now", of the
parsed time otherwise) and whose counters are zero, so that `Stats` on it
returns zero and zero. -/
theorem construction_result (fmtQuote quote : GoString → GoString) (nowStart nowEnd : Time)
    (cfg : FilterParams) (f : TimestampRange)
    (hnew : NewTimestampRange fmtQuote quote nowStart nowEnd cfg = (some f, none)) :
    cfg.FieldByName (cfg.DecodedConfig.getD {}).Field = (f.fidx, true) ∧
    (((cfg.DecodedConfig.getD {}).StartDatetime = lit "now" ∧ f.startDate = nowStart.Unix) ∨
      ((cfg.DecodedConfig.getD {}).StartDatetime ≠ lit "now" ∧
        ∃ t, Parse (cfg.DecodedConfig.getD {}).StartDatetime = Except.ok t ∧
          f.startDate = t.Unix)) ∧
    (((cfg.DecodedConfig.getD {}).EndDatetime = lit "now" ∧ f.endDate = nowEnd.Unix) ∨
      ((cfg.DecodedConfig.getD {}).EndDatetime ≠ lit "now" ∧
        ∃ t, Parse (cfg.DecodedConfig.getD {}).EndDatetime = Except.ok t ∧
          f.endDate = t.Unix)) ∧
    f.numProcessedLines = 0 ∧ f.numFilteredLines = 0 ∧
    (StatsCall f).2 = { NumProcessedLines := 0, NumFilteredLines := 0 } := by
  have hfresh := NewTimestampRange_fresh fmtQuote quote nowStart nowEnd cfg f (by rw [hnew])
  rw [NewTimestampRange_config] at hnew
  generalize cfg.DecodedConfig.getD {} = c at hnew ⊢
  cases hr : cfg.FieldByName c.Field with
  | mk idx found =>
    cases found with
    | false => simp [NewTimestampRange, hr] at hnew
    | true =>
      rw [NewTimestampRange_known fmtQuote quote nowStart nowEnd c cfg.FieldByName idx hr] at hnew
      cases hres : (setTimes quote nowStart nowEnd ⟨0, 0, 0, 0, idx⟩ c.StartDatetime
          c.EndDatetime).2 with
      | some err => simp [hres] at hnew
      | none =>
        simp only [hres, Prod.mk.injEq, Option.some.injEq, and_true] at hnew
        have hfr := setTimes_frame quote nowStart nowEnd ⟨0, 0, 0, 0, idx⟩ c.StartDatetime
          c.EndDatetime
        have hpair := setTimes_none_eq quote nowStart nowEnd ⟨0, 0, 0, 0, idx⟩ c.StartDatetime
          c.EndDatetime hres
        rw [hnew] at hpair hfr
        obtain ⟨hs, he⟩ := setTimes_ok_inv quote nowStart nowEnd _ f _ _ hpair
        refine ⟨?_, hs, he, hfresh.1, hfresh.2, ?_⟩
        · rw [hfr.2.2]
        · simp [StatsCall, Stats, hfresh.1, hfresh.2]

/-- Witness of C12: the construction of the stage of the day 2020-01-01. -/
theorem construction_result_witness :
    NewTimestampRange id id ⟨0, 0⟩ ⟨0, 0⟩ cfgDay = (some stageDay, none) ∧
    cfgDay.FieldByName (cfgDay.DecodedConfig.getD {}).Field = (stageDay.fidx, true) ∧
    (StatsCall stageDay).2 = { NumProcessedLines := 0, NumFilteredLines := 0 } :=
  ⟨by decide,
    (construction_result id id ⟨0, 0⟩ ⟨0, 0⟩ cfgDay stageDay (by decide)).1,
    (construction_result id id ⟨0, 0⟩ ⟨0, 0⟩ cfgDay stageDay (by decide)).2.2.2.2.2⟩

/-! ## Counters, frame and dependence -/

/-- The three ways a `Process` call can end. -/
theorem Process_cases {σ : Type} (f : TimestampRange) (l : Record) (next : Record → σ → σ)
    (down : σ) :
    Process f l next down =
        ({ f with numProcessedLines := f.numProcessedLines + 1,
                  numFilteredLines := f.numFilteredLines + 1 }, down) ∨
    Process f l next down =
        ({ f with numProcessedLines := f.numProcessedLines + 1 }, next l down) := by
  unfold Process
  simp only
  split
  · exact Or.inl rfl
  · split
    · exact Or.inl rfl
    · exact Or.inr rfl

/-- Along a sequence of calls neither counter decreases. -/
theorem run_counters_mono (ls : List Record) (f : TimestampRange) (log : List Record) :
    f.numProcessedLines ≤ (run f log ls).1.numProcessedLines ∧
    f.numFilteredLines ≤ (run f log ls).1.numFilteredLines := by
  induction ls generalizing f log with
  | nil => simp [run]
  | cons l ls ih =>
    have h2 := ih (Process f l record log).1 (Process f l record log).2
    simp only [run]
    rcases Process_cases f l record log with h | h <;> rw [h] at h2 ⊢ <;> simp only at h2 ⊢ <;>
      omega

/-- In the range of `int64` the conversion to `int64` changes nothing. -/
theorem toInt64_of_range {x : Int} (h1 : -(2 : Int) ^ 63 ≤ x) (h2 : x < 2 ^ 63) :
    toInt64 x = x := by
  have e : (2 : Int) ^ 63 = 9223372036854775808 := by norm_num
  rw [e] at h1 h2
  unfold toInt64
  norm_num
  omega

/-- Converting to `int64` before or after an addition gives the same sum. -/
theorem toInt64_add_toInt64 (a b : Int) : toInt64 (toInt64 a + b) = toInt64 (a + b) := by
  unfold toInt64
  norm_num
  omega

/-- Below the largest `int64` the atomic addition of one adds one. -/
theorem AddInt64_one {x : Int} (h1 : -(2 : Int) ^ 63 ≤ x) (h2 : x < 2 ^ 63 - 1) :
    AddInt64 x 1 = x + 1 := by
  unfold AddInt64
  exact toInt64_of_range (by omega) (by omega)

/-- As long as both counters are below the largest `int64`, `Process` with
the counters as integers is `Process` with the counters as `int64`. -/
theorem ProcessInt64_eq_Process {σ : Type} (f : TimestampRange) (l : Record)
    (next : Record → σ → σ) (down : σ)
    (hp1 : -(2 : Int) ^ 63 ≤ f.numProcessedLines) (hp2 : f.numProcessedLines < 2 ^ 63 - 1)
    (hr1 : -(2 : Int) ^ 63 ≤ f.numFilteredLines) (hr2 : f.numFilteredLines < 2 ^ 63 - 1) :
    ProcessInt64 f l next down = Process f l next down := by
  unfold ProcessInt64 Process
  simp only [AddInt64_one hp1 hp2, AddInt64_one hr1 hr2]

/-- As long as both counters stay below `2^63`, a sequence of calls with the
counters as integers is the sequence with the counters as `int64`. -/
theorem runInt64_eq_run (ls : List Record) (f : TimestampRange) (log : List Record)
    (hp1 : -(2 : Int) ^ 63 ≤ f.numProcessedLines)
    (hp2 : f.numProcessedLines + (ls.length : Int) ≤ 2 ^ 63 - 1)
    (hr1 : -(2 : Int) ^ 63 ≤ f.numFilteredLines)
    (hr2 : f.numFilteredLines + (ls.length : Int) ≤ 2 ^ 63 - 1) :
    runInt64 f log ls = run f log ls := by
  induction ls generalizing f log with
  | nil => rfl
  | cons l ls ih =>
    simp only [List.length_cons, Nat.cast_add, Nat.cast_one] at hp2 hr2
    have hlen : (0 : Int) ≤ (ls.length : Int) := Int.ofNat_nonneg _
    have hstep := ProcessInt64_eq_Process f l record log hp1 (by omega) hr1 (by omega)
    simp only [runInt64, run, hstep]
    rcases Process_cases f l record log with h | h <;> rw [h] <;>
      exact ih _ _ (by simp only; omega) (by simp only; omega) (by simp only; omega)
        (by simp only; omega)

/-- The processed counter after a sequence of calls, in the arithmetic of
`int64`: the counter before plus the number of calls, wrapped. -/
theorem runInt64_processed (ls : List Record) (f : TimestampRange) (log : List Record)
    (hp1 : -(2 : Int) ^ 63 ≤ f.numProcessedLines) (hp2 : f.numProcessedLines < 2 ^ 63) :
    (runInt64 f log ls).1.numProcessedLines = toInt64 (f.numProcessedLines + (ls.length : Int)) := by
  induction ls generalizing f log with
  | nil =>
    simp only [runInt64, List.length_nil, Nat.cast_zero, add_zero]
    exact (toInt64_of_range hp1 hp2).symm
  | cons l ls ih =>
    have hproc : ∀ (log : List Record),
        (ProcessInt64 f l record log).1.numProcessedLines = toInt64 (f.numProcessedLines + 1) := by
      intro log
      unfold ProcessInt64
      simp only [AddInt64]
      split
      · rfl
      · split <;> rfl
    have hrange : -(2 : Int) ^ 63 ≤ toInt64 (f.numProcessedLines + 1) ∧
        toInt64 (f.numProcessedLines + 1) < 2 ^ 63 := by
      unfold toInt64
      norm_num
      omega
    simp only [runInt64]
    rw [ih _ _ (by rw [hproc]; exact hrange.1) (by rw [hproc]; exact hrange.2), hproc,
      toInt64_add_toInt64]
    congr 1
    simp only [List.length_cons, Nat.cast_add, Nat.cast_one]
    omega

/-- C13, as the code has it: every `Process` call, whether the field fails to
parse, is out of range or is accepted, on a stage whose counters are below the
largest `int64`, adds exactly one to the processed counter and zero or one to
the rejected counter; `Stats` changes neither counter; and along any sequence
of calls that keeps the counters below `2^63` neither counter decreases, the
processed counter growing by the number of calls. The counters are those of
the code, in the arithmetic of `int64`. -/
theorem counters_grow_below_overflow (f : TimestampRange)
    (hp : -(2 : Int) ^ 63 ≤ f.numProcessedLines) (hr : -(2 : Int) ^ 63 ≤ f.numFilteredLines) :
    (f.numProcessedLines < 2 ^ 63 - 1 → f.numFilteredLines < 2 ^ 63 - 1 →
      ∀ (σ : Type) (l : Record) (next : Record → σ → σ) (down : σ),
        (ProcessInt64 f l next down).1.numProcessedLines = f.numProcessedLines + 1 ∧
        ((ProcessInt64 f l next down).1.numFilteredLines = f.numFilteredLines ∨
          (ProcessInt64 f l next down).1.numFilteredLines = f.numFilteredLines + 1)) ∧
    ((StatsCall f).1.numProcessedLines = f.numProcessedLines ∧
      (StatsCall f).1.numFilteredLines = f.numFilteredLines) ∧
    (∀ (ls : List Record) (log : List Record),
      f.numProcessedLines + (ls.length : Int) ≤ 2 ^ 63 - 1 →
      f.numFilteredLines + (ls.length : Int) ≤ 2 ^ 63 - 1 →
      f.numProcessedLines ≤ (runInt64 f log ls).1.numProcessedLines ∧
      f.numFilteredLines ≤ (runInt64 f log ls).1.numFilteredLines ∧
      (runInt64 f log ls).1.numProcessedLines = f.numProcessedLines + (ls.length : Int)) := by
  refine ⟨?_, ⟨rfl, rfl⟩, ?_⟩
  · intro hp2 hr2 σ l next down
    rw [ProcessInt64_eq_Process f l next down hp hp2 hr hr2]
    rcases Process_cases f l next down with h | h <;> rw [h]
    · exact ⟨rfl, Or.inr rfl⟩
    · exact ⟨rfl, Or.inl rfl⟩
  · intro ls log hp2 hr2
    rw [runInt64_eq_run ls f log hp hp2 hr hr2]
    refine ⟨(run_counters_mono ls f log).1, (run_counters_mono ls f log).2, ?_⟩
    clear hp2 hr2
    induction ls generalizing f log with
    | nil => simp [run]
    | cons l ls ih =>
      have h1 := (Process_accounting f l log).1
      have h2 := ih (Process f l record log).1
        (by rcases Process_cases f l record log with h | h <;> rw [h] <;> simp only <;> omega)
        (by rcases Process_cases f l record log with h | h <;> rw [h] <;> simp only <;> omega)
        (Process f l record log).2
      simp only [run, List.length_cons, Nat.cast_add, Nat.cast_one]
      omega

/-- Witness of C13: the fresh stage of the day 2020-01-01 and three calls,
one of each kind. -/
theorem counters_grow_below_overflow_witness :
    (-(2 : Int) ^ 63 ≤ stageDay.numProcessedLines ∧ -(2 : Int) ^ 63 ≤ stageDay.numFilteredLines) ∧
    (stageDay.numProcessedLines < 2 ^ 63 - 1 ∧ stageDay.numFilteredLines < 2 ^ 63 - 1) ∧
    (ProcessInt64 stageDay (tsRecord "abc") record []).1.numProcessedLines =
      stageDay.numProcessedLines + 1 ∧
    (runInt64 stageDay [] [tsRecord "1577836800", tsRecord "1577923200",
        tsRecord "abc"]).1.numProcessedLines =
      stageDay.numProcessedLines +
        (([tsRecord "1577836800", tsRecord "1577923200", tsRecord "abc"].length : Nat) : Int) :=
  ⟨⟨by decide, by decide⟩, ⟨by decide, by decide⟩,
    ((counters_grow_below_overflow stageDay (by decide) (by decide)).1 (by decide) (by decide)
      (List Record) (tsRecord "abc") record []).1,
    ((counters_grow_below_overflow stageDay (by decide) (by decide)).2.2
      [tsRecord "1577836800", tsRecord "1577923200", tsRecord "abc"] []
      (by decide) (by decide)).2.2⟩

/-- Counterexample to C13 as stated: on the stage of the day 2020-01-01 whose
processed counter holds the largest `int64`, the state a fresh stage is in
after `2^63 - 1` calls, one more `Process` call leaves the counter at the
smallest `int64`: it has not grown by one, and it has decreased. -/
theorem processed_counter_wraps_at_largest_int64 :
    (runInt64 stageDay [] (List.replicate (2 ^ 63 - 1) (tsRecord "1577836800"))).1.numProcessedLines =
      stageDayFull.numProcessedLines ∧
    (ProcessInt64 stageDayFull (tsRecord "1577836800") record []).1.numProcessedLines =
      -9223372036854775808 ∧
    (ProcessInt64 stageDayFull (tsRecord "1577836800") record []).1.numProcessedLines ≠
      stageDayFull.numProcessedLines + 1 ∧
    (ProcessInt64 stageDayFull (tsRecord "1577836800") record []).1.numProcessedLines <
      stageDayFull.numProcessedLines := by
  refine ⟨?_, by decide, by decide, by decide⟩
  rw [runInt64_processed _ _ _ (by decide) (by decide), List.length_replicate]
  decide

/-- The body of `bakerSyscall` for the platforms other than Windows passes
the trap and the three arguments on, each in its place, and returns what the
trap returns. -/
theorem bakerSyscall_passthrough {ρ : Type} (Syscall : Nat → Nat → Nat → Nat → ρ)
    (trap nargs a1 a2 a3 : Nat) :
    bakerSyscall Syscall trap nargs a1 a2 a3 = Syscall trap a1 a2 a3 :=
  rfl

/-- C14, on the code: the body of `bakerSyscall` for Windows hands the trap
its third argument in the place of the second; called with the arguments 1, 2
and 3 it calls the trap with 1, 3 and 3, while the body for the other
platforms passes 1, 2 and 3 on. -/
theorem bakerSyscall_windows_drops_a2 :
    bakerSyscall_windows echoTrap 7 3 1 2 3 = (7, 3, 1, 3, 3) ∧
    bakerSyscall_windows echoTrap 7 3 1 2 3 ≠ echoTrap 7 3 1 2 3 ∧
    bakerSyscall echoTrap3 7 3 1 2 3 = echoTrap3 7 1 2 3 := by
  decide

/-- C16: `Process` and `Stats` leave the start bound, the end bound and the
field index of the stage as they are, for every input, and so does any
sequence of `Process` calls; whatever the continuation does, `Process` either
does not invoke it or invokes it once on the very record it was given. -/
theorem only_the_counters_change (f : TimestampRange) :
    (∀ (σ : Type) (l : Record) (next : Record → σ → σ) (down : σ),
      (Process f l next down).1.startDate = f.startDate ∧
      (Process f l next down).1.endDate = f.endDate ∧
      (Process f l next down).1.fidx = f.fidx ∧
      ((Process f l next down).2 = down ∨ (Process f l next down).2 = next l down)) ∧
    (∀ l : Record, calls f l = [] ∨ calls f l = [l]) ∧
    (StatsCall f).1 = f ∧
    (∀ (ls : List Record) (log : List Record),
      (run f log ls).1.startDate = f.startDate ∧
      (run f log ls).1.endDate = f.endDate ∧
      (run f log ls).1.fidx = f.fidx ∧
      ∀ l ∈ (run f log ls).2, l ∈ log ∨ l ∈ ls) := by
  refine ⟨?_, ?_, rfl, ?_⟩
  · intro σ l next down
    rcases Process_cases f l next down with h | h <;> rw [h]
    · exact ⟨rfl, rfl, rfl, Or.inl rfl⟩
    · exact ⟨rfl, rfl, rfl, Or.inr rfl⟩
  · intro l
    unfold calls
    rcases Process_cases f l record [] with h | h <;> rw [h]
    · exact Or.inl rfl
    · exact Or.inr rfl
  · intro ls log
    refine ⟨(run_frame ls f log).1, (run_frame ls f log).2.1, (run_frame ls f log).2.2, ?_⟩
    induction ls generalizing f log with
    | nil =>
      intro l hl
      exact Or.inl hl
    | cons x xs ih =>
      intro l hl
      simp only [run] at hl
      rcases ih (Process f x record log).1 (Process f x record log).2 l hl with h | h
      · rcases Process_cases f x record log with hp | hp <;> rw [hp] at h
        · exact Or.inl h
        · simp only [record, List.mem_append, List.mem_singleton] at h
          rcases h with h | h
          · exact Or.inl h
          · exact Or.inr (by simp [h])
      · exact Or.inr (List.mem_cons_of_mem _ h)

/-- Witness of C16: on the stage of the day 2020-01-01, a record inside the
day is processed; the bounds stay, and the record in the log of the
continuation is the one that was processed. -/
theorem only_the_counters_change_witness :
    tsRecord "1577836800" ∈ (run stageDay [] [tsRecord "1577836800"]).2 ∧
    (run stageDay [] [tsRecord "1577836800"]).1.startDate = stageDay.startDate ∧
    (tsRecord "1577836800" ∈ ([] : List Record) ∨
      tsRecord "1577836800" ∈ [tsRecord "1577836800"]) :=
  ⟨by decide,
    ((only_the_counters_change stageDay).2.2.2 [tsRecord "1577836800"] []).1,
    ((only_the_counters_change stageDay).2.2.2 [tsRecord "1577836800"] []).2.2.2
      (tsRecord "1577836800") (by decide)⟩

/-- C17: with an unknown field the error is the one of the unknown field,
whatever the two datetime strings are, invalid ones included; with a known
field and a start string that is invalid the error is the one of the start
time, whatever the end string is, an invalid one included. -/
theorem construction_error_precedence (fmtQuote quote : GoString → GoString)
    (nowStart nowEnd : Time) (c : TimestampRangeConfig)
    (FieldByName : GoString → FieldIndex × Bool) (es : ParseError)
    (hstart : c.StartDatetime ≠ lit "now") (hps : Parse c.StartDatetime = Except.error es) :
    ((FieldByName c.Field).2 = false →
      NewTimestampRange fmtQuote quote nowStart nowEnd ⟨some c, FieldByName⟩ =
        (none, some (lit "unknown field " ++ fmtQuote c.Field))) ∧
    ((FieldByName c.Field).2 = true →
      NewTimestampRange fmtQuote quote nowStart nowEnd ⟨some c, FieldByName⟩ =
        (none, some (lit "start time is invalid: " ++ es.Error quote))) := by
  refine ⟨?_, ?_⟩
  · intro hf
    simp [NewTimestampRange, hf]
  · intro hf
    have hk : FieldByName c.Field = ((FieldByName c.Field).1, true) := Prod.ext rfl hf
    rw [NewTimestampRange_known fmtQuote quote nowStart nowEnd c FieldByName _ hk,
      setTimes_start_invalid quote nowStart nowEnd _ _ _ es hstart hps]

/-- Witness of C17: both datetime strings are invalid, "yesterday" and
"tomorrow"; on the unknown field `tz` the error is the one of the field, on
the known field `ts` it is the one of the start time. -/
theorem construction_error_precedence_witness :
    lit "yesterday" ≠ lit "now" ∧
    Parse (lit "yesterday") =
      Except.error ⟨timeLayout, lit "yesterday", lit "2006", lit "yesterday", []⟩ ∧
    (∃ e, Parse (lit "tomorrow") = Except.error e) ∧
    NewTimestampRange id id ⟨0, 0⟩ ⟨0, 0⟩
        ⟨some ⟨lit "yesterday", lit "tomorrow", lit "tz"⟩, tsResolver⟩ =
      (none, some (lit "unknown field " ++ id (lit "tz"))) ∧
    NewTimestampRange id id ⟨0, 0⟩ ⟨0, 0⟩
        ⟨some ⟨lit "yesterday", lit "tomorrow", lit "ts"⟩, tsResolver⟩ =
      (none, some (lit "start time is invalid: " ++
        ParseError.Error id ⟨timeLayout, lit "yesterday", lit "2006", lit "yesterday", []⟩)) :=
  ⟨by decide, by rfl, ⟨_, by rfl⟩,
    (construction_error_precedence id id ⟨0, 0⟩ ⟨0, 0⟩
      ⟨lit "yesterday", lit "tomorrow", lit "tz"⟩ tsResolver _ (by decide) (by rfl)).1
      (by decide),
    (construction_error_precedence id id ⟨0, 0⟩ ⟨0, 0⟩
      ⟨lit "yesterday", lit "tomorrow", lit "ts"⟩ tsResolver _ (by decide) (by rfl)).2
      (by decide)⟩

/-- C19: called without a decoded configuration, `NewTimestampRange` works
with the empty one and returns no stage: the error of the unknown field, for
the empty name, when the resolver does not know the empty name, and the error
of the start time otherwise. -/
theorem nil_config_never_yields_a_stage (fmtQuote quote : GoString → GoString)
    (nowStart nowEnd : Time) (FieldByName : GoString → FieldIndex × Bool) :
    (NewTimestampRange fmtQuote quote nowStart nowEnd ⟨none, FieldByName⟩).1 = none ∧
    ((FieldByName []).2 = false →
      NewTimestampRange fmtQuote quote nowStart nowEnd ⟨none, FieldByName⟩ =
        (none, some (lit "unknown field " ++ fmtQuote []))) ∧
    ((FieldByName []).2 = true →
      NewTimestampRange fmtQuote quote nowStart nowEnd ⟨none, FieldByName⟩ =
        (none, some (lit "start time is invalid: " ++
          ParseError.Error quote ⟨timeLayout, [], lit "2006", [], []⟩))) := by
  have hp : Parse [] = Except.error ⟨timeLayout, [], lit "2006", [], []⟩ := by rfl
  have hnow : ([] : GoString) ≠ lit "now" := by decide
  have hunk : (FieldByName []).2 = false →
      NewTimestampRange fmtQuote quote nowStart nowEnd ⟨none, FieldByName⟩ =
        (none, some (lit "unknown field " ++ fmtQuote [])) := by
    intro hf
    simp [NewTimestampRange, hf]
  have hkn : (FieldByName []).2 = true →
      NewTimestampRange fmtQuote quote nowStart nowEnd ⟨none, FieldByName⟩ =
        (none, some (lit "start time is invalid: " ++
          ParseError.Error quote ⟨timeLayout, [], lit "2006", [], []⟩)) := by
    intro hf
    have hk : FieldByName ({} : TimestampRangeConfig).Field = ((FieldByName []).1, true) :=
      Prod.ext rfl hf
    rw [NewTimestampRange_config]
    show NewTimestampRange fmtQuote quote nowStart nowEnd ⟨some {}, FieldByName⟩ = _
    rw [NewTimestampRange_known fmtQuote quote nowStart nowEnd {} FieldByName _ hk,
      setTimes_start_invalid quote nowStart nowEnd _ _ _ _ hnow hp]
  refine ⟨?_, hunk, hkn⟩
  cases hf : (FieldByName []).2 with
  | false => rw [hunk hf]
  | true => rw [hkn hf]

/-- Witness of C19: the resolver of `ts` does not know the empty name. -/
theorem nil_config_never_yields_a_stage_witness :
    (tsResolver []).2 = false ∧
    NewTimestampRange id id ⟨0, 0⟩ ⟨0, 0⟩ ⟨none, tsResolver⟩ =
      (none, some (lit "unknown field " ++ id [])) :=
  ⟨by decide, (nil_config_never_yields_a_stage id id ⟨0, 0⟩ ⟨0, 0⟩ tsResolver).2.1 (by decide)⟩

/-! ## Interleavings of concurrent calls -/

/-- A call that runs its two steps with no other thread in between does what
`Process` does. -/
theorem Call_step_step (l : Record) (s : TimestampRange × List Record) :
    ((Call.step (Call.step ⟨l, Pc.start⟩ s).2 (Call.step ⟨l, Pc.start⟩ s).1).1 =
      Process s.1 l record s.2) ∧
    (Call.step (Call.step ⟨l, Pc.start⟩ s).2 (Call.step ⟨l, Pc.start⟩ s).1).2 =
      ⟨l, Pc.returned⟩ := by
  simp only [Call.step, Process]
  split
  · exact ⟨rfl, rfl⟩
  · split
    · exact ⟨rfl, rfl⟩
    · exact ⟨rfl, rfl⟩

end Baker
